import Mathlib

/-!
Verification of the theoraculo document pipeline (src/oraculo/scraper.py and
src/oraculo/ocr.py) against its natural-language specification.

Strings are embedded as `List Char` (Python `str`).  Remote I/O, the PIL image
library, the Tesseract OCR engine and the PDF backends are external
collaborators: they are abstracted as explicit inputs (a folder tree with
pagination for the Microsoft Graph listing, per-attempt download outcomes, a
per-image OCR result, per-page native text).  The Python logic that the
repository itself contains — recursion, pagination, retry loops, tag
construction and parsing, dispatch, the preprocessing chain — is translated
statement by statement.
-/

namespace Oraculo

/-! ### String primitives (Python `str` operations on `List Char`) -/

/-- Python whitespace for `str.strip` (ASCII subset). -/
def isSpaceChar (c : Char) : Bool :=
  c = ' ' || c = '\t' || c = '\n' || c = '\r' || c = '\x0b' || c = '\x0c'

/-- Python `s.strip()`. -/
def strip (s : List Char) : List Char :=
  ((s.dropWhile isSpaceChar).reverse.dropWhile isSpaceChar).reverse

/-- Python `c.lower()` for one character (ASCII range; the keyword tests in the
source only involve ASCII letters). -/
def lowerChar (c : Char) : Char :=
  if 'A' ≤ c ∧ c ≤ 'Z' then Char.ofNat (c.toNat + 32) else c

/-- Python `s.lower()`. -/
def lower (s : List Char) : List Char := s.map lowerChar

/-- Python `pat in s` (substring containment). -/
def containsSeq (pat : List Char) : List Char → Bool
  | [] => pat.isPrefixOf []
  | c :: rest => pat.isPrefixOf (c :: rest) || containsSeq pat rest

/-- Python `s.endswith(suf)`. -/
def endsWithSeq (suf s : List Char) : Bool :=
  suf.reverse.isPrefixOf s.reverse

/-- Split at the first occurrence of `pat`: returns the part before and the
part after.  `none` when `pat` does not occur. -/
def splitFirst (pat : List Char) : List Char → Option (List Char × List Char)
  | [] => if pat.isPrefixOf [] then some ([], []) else none
  | c :: rest =>
    if pat.isPrefixOf (c :: rest) then some ([], (c :: rest).drop pat.length)
    else (splitFirst pat rest).map (fun p => (c :: p.1, p.2))

/-- Python `s.split(pat)[1]`: the segment between the first and the second
occurrence of `pat` (everything after the first occurrence when there is no
second one); `none` when `pat` does not occur at all (`[1]` would raise). -/
def pySplitSnd (pat s : List Char) : Option (List Char) :=
  match splitFirst pat s with
  | none => none
  | some (_, b) =>
    match splitFirst pat b with
    | none => some b
    | some (c, _) => some c

/-- Python `s.split("]")[0]`: the prefix up to the first `']'`. -/
def upToBracket (s : List Char) : List Char := s.takeWhile (fun c => c ≠ ']')

/-- Python `int(s)` restricted to the decimal-digit strings produced by the
annotator; `none` models `ValueError`. -/
def parseNat? (s : List Char) : Option Nat :=
  if s ≠ [] && s.all (fun c => c.isDigit) then
    some (s.foldl (fun acc c => acc * 10 + (c.toNat - 48)) 0)
  else none

/-- Decimal rendering of a natural number, with explicit fuel so that it
reduces by structural recursion (the fuel `n + 1` always suffices). -/
def natCharsAux : Nat → Nat → List Char
  | 0, _ => []
  | fuel + 1, n =>
    if n < 10 then [Char.ofNat (48 + n)]
    else natCharsAux fuel (n / 10) ++ [Char.ofNat (48 + n % 10)]

/-- Decimal rendering of a natural number, Python `str(n)`. -/
def natChars (n : Nat) : List Char := natCharsAux (n + 1) n

/-- Python `" ".join`-style join used for the context tags. -/
def joinSpace : List (List Char) → List Char
  | [] => []
  | [t] => t
  | t :: rest => t ++ ' ' :: joinSpace rest

/-! ### Crawler embedding (`listar_todos_os_arquivos`, scraper.py 144-354)

The remote drive is a folder tree.  A folder's listing arrives in pages
(the initial `GET` plus `@odata.nextLink` continuations), so a folder's
content is a `List (List Entry)`. -/

inductive Entry : Type where
  | file : List Char → Entry
  | dir : List Char → List (List Entry) → Entry
deriving Repr

/-- The fields of a returned file record that the claims talk about:
`name`, `_nivel_hierarquico`, `_caminho_pasta`, `_pasta_pai`, `_categoria`.
(`_data_comunicado` is omitted: no claim mentions it.) -/
structure Arq where
  name : List Char
  nivel : Nat
  caminho : List Char
  pastaPai : Option (List Char)
  categoria : Option (List Char)
deriving Repr, DecidableEq

/-- Python `if limite and len(arquivos) >= limite` (note `limite = 0` is
falsy, hence no cap). -/
def capReached (limite : Option Nat) (n : Nat) : Bool :=
  match limite with
  | none => false
  | some l => l ≠ 0 && n ≥ l

/-- Python `s.replace("//", "/")`: left-to-right, non-overlapping. -/
def replaceDS : List Char → List Char
  | [] => []
  | [c] => [c]
  | c1 :: c2 :: rest =>
    if c1 = '/' ∧ c2 = '/' then '/' :: replaceDS rest
    else c1 :: replaceDS (c2 :: rest)

/-- `f"{caminho_pasta}/{item['name']}".replace("//", "/")` (scraper.py 224). -/
def novaPasta (caminho nome : List Char) : List Char :=
  replaceDS (caminho ++ '/' :: nome)

/-- The per-call rebinding of `caminho_pasta` (scraper.py 177-184): the
root path `/` is left alone; any other path has its double slashes
collapsed and then a leading slash stripped.  The rebound value is what the
function stores in `_caminho_pasta` and joins into `nova_pasta`. -/
def normalizaCaminho (p : List Char) : List Char :=
  if p = ['/'] then p
  else
    let q := replaceDS p
    if q.take 1 = ['/'] then q.drop 1 else q

/-- Extension filter test: `any(nome.endswith(ext.lower()) for ext in exts)`
applied to the lower-cased name, guarded by `if filtrar_extensoes`. -/
def passaFiltro (filtrar : Option (List (List Char))) (nomeLower : List Char) : Bool :=
  match filtrar with
  | none => true
  | some exts => exts.any (fun ext => endsWithSeq (lower ext) nomeLower)

/-- Category inference at file discovery (scraper.py 279-301). -/
def categoriaArquivo (nomeLower : List Char) : Option (List Char) :=
  if containsSeq "guia".data nomeLower && containsSeq "pratico".data nomeLower then
    some "Guia Prático".data
  else if containsSeq "comunicado".data nomeLower then
    some "Comunicado".data
  else none

/-- Category override applied to every file brought back from a subfolder,
keyed on the subfolder's name (scraper.py 250-261). -/
def categoriaPasta (nomePastaLower : List Char) : Option (List Char) :=
  if containsSeq "guia".data nomePastaLower && containsSeq "rápido".data nomePastaLower then
    some "Guia Rápido".data
  else if containsSeq "comunicado".data nomePastaLower then
    some "Comunicado".data
  else if containsSeq "linha".data nomePastaLower && containsSeq "frente".data nomePastaLower then
    some "Linha de Frente".data
  else if containsSeq "assistência".data nomePastaLower || containsSeq "assistencia".data nomePastaLower then
    some "Assistência".data
  else if containsSeq "seguro".data nomePastaLower || containsSeq "segurador".data nomePastaLower then
    some "Seguro".data
  else none

/-- `arq['_pasta_pai'] = item['name']` and the `_categoria` keyword override
run over every file returned from a subfolder. -/
def marcaPai (nomePasta : List Char) (a : Arq) : Arq :=
  { a with
    pastaPai := some nomePasta
    categoria := match categoriaPasta (lower nomePasta) with
      | some c => some c
      | none => a.categoria }

/-- One `for item in itens` pass of the pagination loop (scraper.py
318-337), with the post-item cap check and `break`.  Folder entries are
skipped without recursion. -/
def pagina (filtrar : Option (List (List Char))) (limite : Option Nat)
    (nivel : Nat) (caminho : List Char) :
    List Entry → List Arq → List Arq
  | [], acc => acc
  | item :: restItems, acc =>
    match item with
    | .dir _ _ =>
      if capReached limite acc.length then acc
      else pagina filtrar limite nivel caminho restItems acc
    | .file nome =>
      let acc :=
        if passaFiltro filtrar (lower nome) then
          acc ++ [⟨nome, nivel, caminho, none, none⟩]
        else acc
      if capReached limite acc.length then acc
      else pagina filtrar limite nivel caminho restItems acc

/-- The `while next_link` pagination loop (scraper.py 311-340): continuation
pages contribute only their file entries — folder entries are not recursed
into there. -/
def paginacao (filtrar : Option (List (List Char))) (limite : Option Nat)
    (nivel : Nat) (caminho : List Char) :
    List (List Entry) → List Arq → List Arq
  | [], acc => acc
  | page :: rest, acc =>
    if capReached limite acc.length then acc
    else
      let acc := pagina filtrar limite nivel caminho page acc
      paginacao filtrar limite nivel caminho rest acc

mutual

/-- `listar_todos_os_arquivos` for one folder whose listing pages are
`pages`, called with the current `nivel_atual` and `caminho_pasta`.  The
call first rebinds `caminho_pasta` to its normalized form (scraper.py
177-184) and uses that value throughout.  The progress-bar parameters are
pure display and are not modelled. -/
def listarTodos (pages : List (List Entry)) (nivel : Nat) (caminho : List Char)
    (limite : Option Nat) (filtrar : Option (List (List Char))) : List Arq :=
  let cam := normalizaCaminho caminho
  match pages with
  | [] => []
  | page0 :: restPages =>
    let arquivos := listarItens page0 nivel cam limite filtrar []
    paginacao filtrar limite nivel cam restPages arquivos
termination_by sizeOf pages

/-- The `for i, item in enumerate(itens)` loop over the first page
(scraper.py 209-309), with the cap check at the top of each iteration, the
recursive descent for folders, the post-descent cap check, and file
accumulation. -/
def listarItens (items : List Entry) (nivel : Nat) (caminho : List Char)
    (limite : Option Nat) (filtrar : Option (List (List Char)))
    (acc : List Arq) : List Arq :=
  match items with
  | [] => acc
  | item :: rest =>
    if capReached limite acc.length then acc
    else
      match item with
      | .dir nome subPages =>
        let sub := listarTodos subPages (nivel + 1) (novaPasta caminho nome) limite filtrar
        let sub := sub.map (marcaPai nome)
        let acc := acc ++ sub
        if capReached limite acc.length then acc
        else listarItens rest nivel caminho limite filtrar acc
      | .file nome =>
        let nomeLower := lower nome
        let acc :=
          if passaFiltro filtrar nomeLower then
            acc ++ [⟨nome, nivel, caminho, none, categoriaArquivo nomeLower⟩]
          else acc
        listarItens rest nivel caminho limite filtrar acc
termination_by sizeOf items
decreasing_by all_goals simp_wf; all_goals omega

end

/-! ### Instrumented crawler

Identical logic to `listarTodos`/`listarItens`, additionally returning the
`caminho_pasta` of every folder whose listing was requested, in request
order.  Used to express "the crawl halts before descending into `B`". -/

mutual

def listarTodosV (pages : List (List Entry)) (nivel : Nat) (caminho : List Char)
    (limite : Option Nat) (filtrar : Option (List (List Char))) :
    List Arq × List (List Char) :=
  let cam := normalizaCaminho caminho
  match pages with
  | [] => ([], [cam])
  | page0 :: restPages =>
    let r := listarItensV page0 nivel cam limite filtrar []
    (paginacao filtrar limite nivel cam restPages r.1, cam :: r.2)
termination_by sizeOf pages

def listarItensV (items : List Entry) (nivel : Nat) (caminho : List Char)
    (limite : Option Nat) (filtrar : Option (List (List Char)))
    (acc : List Arq) : List Arq × List (List Char) :=
  match items with
  | [] => (acc, [])
  | item :: rest =>
    if capReached limite acc.length then (acc, [])
    else
      match item with
      | .dir nome subPages =>
        let sub := listarTodosV subPages (nivel + 1) (novaPasta caminho nome) limite filtrar
        let acc2 := acc ++ sub.1.map (marcaPai nome)
        if capReached limite acc2.length then (acc2, sub.2)
        else
          let r := listarItensV rest nivel caminho limite filtrar acc2
          (r.1, sub.2 ++ r.2)
      | .file nome =>
        let nomeLower := lower nome
        let acc2 :=
          if passaFiltro filtrar nomeLower then
            acc ++ [⟨nome, nivel, caminho, none, categoriaArquivo nomeLower⟩]
          else acc
        listarItensV rest nivel caminho limite filtrar acc2
termination_by sizeOf items
decreasing_by all_goals simp_wf; all_goals omega

end

/-! ### Specification side for the crawler claim

The claim speaks of "the set of leaf files of the tree, each tagged with
depth equal to its true nesting level and folder_path equal to the ordered
list of its ancestor folder names".  `folhas` enumerates exactly that,
walking every page of every folder. -/

/-- `"/" ++ name` repeated: the slash-prefixed join of folder names. -/
def caminhoTail : List (List Char) → List Char
  | [] => []
  | a :: rest => '/' :: (a ++ caminhoTail rest)

/-- The folder path the program records for a file under the given
ancestor folder names: the root itself is `"/"`, and any nested path is
the slash-joined ancestor names without a leading slash (`"A"`, `"A/B"`,
…), as produced by the per-call normalization of `caminho_pasta`. -/
def caminhoDe (anc : List (List Char)) : List Char :=
  match anc with
  | [] => ['/']
  | a :: rest => a ++ caminhoTail rest

mutual

/-- All leaf files in a pages list, as `(name, depth, folder path)`. -/
def folhas (pages : List (List Entry)) (anc : List (List Char)) :
    List (List Char × Nat × List Char) :=
  match pages with
  | [] => []
  | p :: rest => folhasPagina p anc ++ folhas rest anc
termination_by sizeOf pages

def folhasPagina (items : List Entry) (anc : List (List Char)) :
    List (List Char × Nat × List Char) :=
  match items with
  | [] => []
  | .file nome :: rest => (nome, anc.length, caminhoDe anc) :: folhasPagina rest anc
  | .dir nome sub :: rest => folhas sub (anc ++ [nome]) ++ folhasPagina rest anc
termination_by sizeOf items
decreasing_by all_goals simp_wf; all_goals omega

end

/-- The projection of a crawler record onto the fields the claim talks
about. -/
def projArq (a : Arq) : List Char × Nat × List Char := (a.name, a.nivel, a.caminho)

def entradaArquivo : Entry → Bool
  | .file _ => true
  | .dir _ _ => false

mutual

/-- Folder names are nonempty and slash-free throughout the tree (the
remote drive cannot produce other names; needed so that path joining is
injective). -/
def nomesOk (pages : List (List Entry)) : Bool :=
  match pages with
  | [] => true
  | p :: rest => nomesOkPagina p && nomesOk rest
termination_by sizeOf pages

def nomesOkPagina (items : List Entry) : Bool :=
  match items with
  | [] => true
  | .file _ :: rest => nomesOkPagina rest
  | .dir nome sub :: rest =>
    (nome ≠ [] && nome.all (fun c => c ≠ '/')) && nomesOk sub && nomesOkPagina rest
termination_by sizeOf items
decreasing_by all_goals simp_wf; all_goals omega

end

mutual

/-- Every folder entry of the tree is delivered on the first page of its
parent's listing (continuation pages hold only files). -/
def pastasNaPrimeiraPagina (pages : List (List Entry)) : Bool :=
  match pages with
  | [] => true
  | p :: rest =>
    pastasPagina p && rest.all (fun pg => pg.all entradaArquivo)
termination_by sizeOf pages

def pastasPagina (items : List Entry) : Bool :=
  match items with
  | [] => true
  | .file _ :: rest => pastasPagina rest
  | .dir _ sub :: rest => pastasNaPrimeiraPagina sub && pastasPagina rest
termination_by sizeOf items
decreasing_by all_goals simp_wf; all_goals omega

end

/-! ### Retry download embedding (`baixar_arquivos`, scraper.py 411-529)

The network is an oracle: `o t` is what attempt number `t` of
`baixar_arquivo` produces — `some conteudo` when the download succeeded
(non-`None` local path), `none` when it failed (request exception inside
`baixar_arquivo`, or any exception reaching the `except` arm). -/

/-- The `for tentativa in range(max_tentativas)` loop for one file
(scraper.py 485-519), starting at attempt `t`.  Returns the download
result, the number of attempts performed, and the total seconds slept
(`time.sleep(2)` runs after a failed attempt except the last one). -/
def tentativasAux (o : Nat → Option (List Char)) (maxT : Nat) :
    Nat → Nat → Option (List Char) × Nat × Nat
  | 0, _ => (none, 0, 0)
  | fuel + 1, t =>
    if t < maxT then
      match o t with
      | some c => (some c, 1, 0)
      | none =>
        let r := tentativasAux o maxT fuel (t + 1)
        (r.1, r.2.1 + 1, r.2.2 + (if t < maxT - 1 then 2 else 0))
    else (none, 0, 0)

def tentativas (o : Nat → Option (List Char)) (maxT t : Nat) :
    Option (List Char) × Nat × Nat :=
  tentativasAux o maxT (maxT - t) t

/-- The fields of one entry of the `arquivos` argument that
`baixar_arquivos` reads. -/
structure ArquivoRef where
  name : List Char
  temLink : Bool
  nivel : Nat
  caminho : List Char
  categoria : List Char
deriving Repr, DecidableEq

/-- One record of the returned `arquivos_baixados` list (the local-path
field, a filesystem side effect, is not modelled). -/
structure Baixado where
  nome : List Char
  nivel : Nat
  caminho : List Char
  categoria : List Char
  tipo : List Char
deriving Repr, DecidableEq

/-- File-type classification of a downloaded file (scraper.py 501-509). -/
def tipoDe (nomeLower : List Char) : List Char :=
  if [".png", ".jpg", ".jpeg", ".gif", ".bmp"].any
      (fun e => endsWithSeq e.data nomeLower) then "imagem".data
  else if endsWithSeq ".pdf".data nomeLower then "pdf".data
  else if [".txt", ".csv"].any (fun e => endsWithSeq e.data nomeLower) then "texto".data
  else "outro".data

/-- Default `extensoes_validas` (scraper.py 435-440). -/
def extensoesPadrao : List (List Char) :=
  [".pdf", ".docx", ".pptx", ".xlsx", ".png", ".jpg", ".jpeg", ".gif", ".bmp",
   ".txt", ".csv", ".html"].map String.data

/-- The per-file download loop of `baixar_arquivos` (scraper.py 469-519):
files without a download link are skipped, failures after all attempts are
omitted from the result. -/
def baixarLoop (o : List Char → Nat → Option (List Char)) (maxT : Nat) :
    List ArquivoRef → List Baixado
  | [] => []
  | a :: rest =>
    if a.temLink then
      match (tentativas (o a.name) maxT 0).1 with
      | some _ =>
        ⟨a.name, a.nivel, a.caminho, a.categoria, tipoDe (lower a.name)⟩ ::
          baixarLoop o maxT rest
      | none => baixarLoop o maxT rest
    else baixarLoop o maxT rest

/-- `baixar_arquivos` (scraper.py 411-529). -/
def baixarArquivos (o : List Char → Nat → Option (List Char))
    (arquivos : List ArquivoRef) (extensoes : Option (List (List Char)))
    (maxTentativas : Nat := 3) : List Baixado :=
  let exts := (extensoes.getD extensoesPadrao).map lower
  let paraBaixar := arquivos.filter
    (fun a => exts.any (fun e => endsWithSeq e (lower a.name)))
  baixarLoop o maxTentativas paraBaixar

/-! ### Context tags (ocr.py 186-210 / 354-378 / 465-489)

Each tag is rendered as `'[' ++ name ++ payload ++ ']'`; the five tag names
are `"Nível "`, `"Caminho: "`, `"Tipo: "`, `"Menu: "`, `"Categoria: "`. -/

def renderTag (t : List Char × List Char) : List Char :=
  '[' :: (t.1 ++ t.2) ++ [']']

/-- Join with a separator string (Python `sep.join`). -/
def joinSep (sep : List Char) : List (List Char) → List Char
  | [] => []
  | [t] => t
  | t :: rest => t ++ sep ++ joinSep sep rest

/-- `f"[Nível {nivel_hierarquico}]"` when `nivel_hierarquico > 0`. -/
def nivelTagOpt (nivel : Nat) : Option (List Char × List Char) :=
  if nivel > 0 then some ("Nível ".data, natChars nivel) else none

/-- `f"[Caminho: {caminho_pasta}]"` when the path is truthy and not the
root. -/
def caminhoTagOpt (caminho : List Char) : Option (List Char × List Char) :=
  if caminho ≠ [] ∧ caminho ≠ ['/'] then some ("Caminho: ".data, caminho) else none

/-- `[Tipo: ...]` from the file name and the extracted text. -/
def tipoTag (nomeLower textoLower : List Char) : Option (List Char × List Char) :=
  if containsSeq "guia".data nomeLower then
    some ("Tipo: ".data, "Guia".data)
  else if containsSeq "comunicado".data nomeLower ||
      containsSeq "comunicado".data textoLower then
    some ("Tipo: ".data, "Comunicado".data)
  else none

/-- `[Menu: ...]` / `[Categoria: ...]` from the extracted text. -/
def menuCatTag (textoLower : List Char) : Option (List Char × List Char) :=
  if containsSeq "guia rápido".data textoLower then
    some ("Menu: ".data, "Guia Rápido".data)
  else if containsSeq "assistências".data textoLower ||
      containsSeq "assistencias".data textoLower then
    some ("Categoria: ".data, "Assistências".data)
  else if containsSeq "seguros".data textoLower ||
      containsSeq "seguradoras".data textoLower then
    some ("Categoria: ".data, "Seguros".data)
  else none

/-- The `contexto` list built by the extractors from level, path, file name
and text. -/
def contextoList (nivel : Nat) (caminho nomeLower textoLower : List Char) :
    List (List Char × List Char) :=
  (nivelTagOpt nivel).toList ++ (caminhoTagOpt caminho).toList ++
    (tipoTag nomeLower textoLower).toList ++ (menuCatTag textoLower).toList

/-- `" ".join(contexto) + "\n\n" + texto` when there are tags. -/
def comContexto (ctx : List (List Char × List Char)) (texto : List Char) : List Char :=
  if ctx ≠ [] then joinSep [' '] (ctx.map renderTag) ++ '\n' :: '\n' :: texto
  else texto

/-! ### Image extraction (`extrair_texto_de_imagem`, ocr.py 122-221)

An image is abstracted by what the external collaborators would report on
it: whether `Image.open` raises (and with which message), what
`pytesseract.image_to_string` returns for the preprocessed image, and which
button texts `detectar_botoes_e_menus` finds. -/

structure Imagem where
  erroAbrir : Option (List Char)
  ocrRaw : List Char
  botoes : List (List Char)
deriving Repr, DecidableEq

def sentinelaImagem : List Char := "[imagem sem texto legível]".data

/-- `f"- Botão {i+1}: '{botao['texto']}'"` lines (ocr.py 183-184). -/
def botoesLinhas : Nat → List (List Char) → List (List Char)
  | _, [] => []
  | i, t :: rest => ("- Botão ".data ++ natChars i ++ ": '".data ++ t ++ ['\'']) ::
      botoesLinhas (i + 1) rest

/-- `return texto if texto else "[imagem sem texto legível]"` (ocr.py 217). -/
def ouSentinela (texto : List Char) : List Char :=
  if texto ≠ [] then texto else sentinelaImagem

/-- `extrair_texto_de_imagem` after the input was loaded, with the file
name the source assigns to the given input form. -/
def extrairTextoDeImagemCore (img : Imagem) (nome : List Char) (nivel : Nat)
    (caminho : List Char) : List Char :=
  match img.erroAbrir with
  | some e => "[erro ao processar imagem: ".data ++ e ++ [']']
  | none =>
    let texto := strip img.ocrRaw
    let elementos :=
      if img.botoes ≠ [] then
        "\n\nElementos de interface detectados:".data :: botoesLinhas 1 img.botoes
      else []
    let ctx := contextoList nivel caminho (lower nome) (lower texto)
    let texto := comContexto ctx texto
    let texto :=
      if elementos ≠ [] then texto ++ '\n' :: joinSep ['\n'] elementos else texto
    ouSentinela texto

/-- `extrair_texto_de_imagem` on a `bytes` payload (`nome_arquivo =
"arquivo_binario.png"`, ocr.py 154-157). -/
def extrairTextoDeImagemBytes (img : Imagem) (nivel : Nat) (caminho : List Char) :
    List Char :=
  extrairTextoDeImagemCore img "arquivo_binario.png".data nivel caminho

/-- `extrair_texto_de_imagem` on a PIL image (`nome_arquivo = "imagem.png"`,
ocr.py 158-161). -/
def extrairTextoDeImagemPIL (img : Imagem) (nivel : Nat) (caminho : List Char) :
    List Char :=
  extrairTextoDeImagemCore img "imagem.png".data nivel caminho

/-! ### PDF extraction (ocr.py 223-494) -/

/-- One PDF page: its embedded text layer (`page.get_text()`) and the
abstract image of its 300-DPI render. -/
structure Pagina where
  nativo : List Char
  imagem : Imagem
deriving Repr, DecidableEq

def sentinelaPdf : List Char := "[PDF sem texto legível]".data

def pdfHeader (i : Nat) : List Char :=
  "--- Página ".data ++ natChars i ++ " ---\n".data

def pdfHeaderOcr (i : Nat) : List Char :=
  "--- Página ".data ++ natChars i ++ " (OCR) ---\n".data

/-- The per-page loop of `extrair_texto_de_pdf_com_pymupdf` (ocr.py
324-349): native text wins when non-blank; otherwise the page is OCRed and
the result is kept only when it is neither empty nor the no-text
sentinel. -/
def pymupdfTextos (nivel : Nat) (caminho : List Char) :
    Nat → List Pagina → List (List Char)
  | _, [] => []
  | i, p :: rest =>
    let blocos := pymupdfTextos nivel caminho (i + 1) rest
    if strip p.nativo ≠ [] then (pdfHeader i ++ p.nativo) :: blocos
    else
      let ocr := extrairTextoDeImagemPIL p.imagem nivel caminho
      if ocr ≠ [] ∧ ocr ≠ sentinelaImagem then (pdfHeaderOcr i ++ ocr) :: blocos
      else blocos

/-- `extrair_texto_de_pdf_com_pymupdf` (ocr.py 297-383).  `doc = none`
models `fitz.open` (or anything else inside the `try`) raising, in which
case the error string is returned — the alternate backend is not tried. -/
def extrairTextoDePdfComPymupdf (doc : Option (List Pagina)) (errMsg : List Char)
    (nivel : Nat) (caminho nome : List Char) : List Char :=
  match doc with
  | none => "[erro ao processar PDF com PyMuPDF: ".data ++ errMsg ++ [']']
  | some paginas =>
    let textos := pymupdfTextos nivel caminho 1 paginas
    let combinado := if textos ≠ [] then joinSep ('\n' :: ['\n']) textos else sentinelaPdf
    comContexto (contextoList nivel caminho (lower nome) (lower combinado)) combinado

/-- What `pdf2image.convert_from_path` would produce: the page renders, or
a conversion failure with its message (`popplerErr` marks the
"Unable to get page count" case). -/
structure Pdf2ImageDoc where
  imagens : Option (List Imagem)
  errMsg : List Char
  popplerErr : Bool
deriving Repr, DecidableEq

/-- The per-page loop of `extrair_texto_de_pdf_com_pdf2image` (ocr.py
439-456). -/
def pdf2imageTextos (nivel : Nat) (caminho : List Char) :
    Nat → List Imagem → List (List Char)
  | _, [] => []
  | i, img :: rest =>
    let t := extrairTextoDeImagemPIL img nivel caminho
    let blocos := pdf2imageTextos nivel caminho (i + 1) rest
    if t ≠ [] ∧ t ≠ sentinelaImagem then (pdfHeader i ++ t) :: blocos else blocos

/-- `extrair_texto_de_pdf_com_pdf2image` (ocr.py 385-494). -/
def extrairTextoDePdfComPdf2image (doc : Pdf2ImageDoc) (nivel : Nat)
    (caminho nome : List Char) : List Char :=
  match doc.imagens with
  | none =>
    if doc.popplerErr then "[erro com Poppler: ".data ++ doc.errMsg ++ [']']
    else "[erro ao converter PDF para imagens: ".data ++ doc.errMsg ++ [']']
  | some imgs =>
    let textos := pdf2imageTextos nivel caminho 1 imgs
    let combinado := if textos ≠ [] then joinSep ('\n' :: ['\n']) textos else sentinelaPdf
    comContexto (contextoList nivel caminho (lower nome) (lower combinado)) combinado

/-- Which PDF libraries import successfully. -/
structure PdfEnv where
  temFitz : Bool
  temPdf2image : Bool
deriving Repr, DecidableEq

/-- A PDF payload as seen by both backends. -/
structure Pdf where
  fitzDoc : Option (List Pagina)
  fitzErr : List Char
  p2i : Pdf2ImageDoc
deriving Repr, DecidableEq

/-- `extrair_texto_de_pdf` (ocr.py 223-295): PyMuPDF is used whenever
`import fitz` succeeds; pdf2image only on `ImportError`. -/
def extrairTextoDePdf (env : PdfEnv) (pdf : Pdf) (nivel : Nat)
    (caminho nome : List Char) : List Char :=
  if env.temFitz then
    extrairTextoDePdfComPymupdf pdf.fitzDoc pdf.fitzErr nivel caminho nome
  else if env.temPdf2image then
    extrairTextoDePdfComPdf2image pdf.p2i nivel caminho nome
  else "[erro: nenhuma biblioteca de processamento de PDF está disponível]".data

/-! ### Dispatcher (`extrair_texto_de_arquivo`, ocr.py 496-634) -/

/-- A binary payload as seen by every collaborator the dispatcher may hand
it to: the `python-magic` sniff result (`none` when `magic` is missing or
raised), the image view, the PDF view, and the ignore-errors UTF-8
decode. -/
structure Conteudo where
  mime : Option (List Char)
  imagem : Imagem
  pdf : Pdf
  texto : List Char
deriving Repr, DecidableEq

def extensoesImagem : List (List Char) :=
  [".png", ".jpg", ".jpeg", ".gif", ".bmp", ".tiff", ".webp"].map String.data

def extensoesTexto : List (List Char) :=
  [".txt", ".csv", ".md", ".html", ".xml"].map String.data

/-- The plain-text branch (ocr.py 550-571 / 588-609): decoded text with
only the level and path tags prepended. -/
def textoComNivelCaminho (texto : List Char) (nivel : Nat) (caminho : List Char) :
    List Char :=
  comContexto ((nivelTagOpt nivel).toList ++ (caminhoTagOpt caminho).toList) texto

/-- The extension-matching fallback branch of `extrair_texto_de_arquivo`
(ocr.py 572-631).  For unknown extensions the image attempt is returned
directly: `extrair_texto_de_imagem` catches its own exceptions, so its
`try` never falls through. -/
def extrairPorExtensao (env : PdfEnv) (c : Conteudo) (nome : List Char)
    (nivel : Nat) (caminho : List Char) : List Char :=
  if extensoesImagem.any (fun e => endsWithSeq e nome) then
    extrairTextoDeImagemBytes c.imagem nivel caminho
  else if endsWithSeq ".pdf".data nome then
    extrairTextoDePdf env c.pdf nivel caminho "arquivo.pdf".data
  else if extensoesTexto.any (fun e => endsWithSeq e nome) then
    textoComNivelCaminho c.texto nivel caminho
  else extrairTextoDeImagemBytes c.imagem nivel caminho

/-- `extrair_texto_de_arquivo` on a `bytes` payload (ocr.py 496-634).
When the sniff yields a truthy MIME type the decision is by MIME family
alone; when it yields a family outside image/pdf/text the function falls
through to the final unsupported-format string without consulting the
extension. -/
def extrairTextoDeArquivo (env : PdfEnv) (c : Conteudo) (nomeArquivo : List Char)
    (nivel : Nat) (caminho : List Char) : List Char :=
  let nome := lower nomeArquivo
  let mimeTruthy : Bool := match c.mime with
    | some m => !m.isEmpty
    | none => false
  if mimeTruthy then
    match c.mime with
    | some m =>
      if containsSeq "image".data m then extrairTextoDeImagemBytes c.imagem nivel caminho
      else if containsSeq "pdf".data m then
        extrairTextoDePdf env c.pdf nivel caminho "arquivo.pdf".data
      else if containsSeq "text".data m then textoComNivelCaminho c.texto nivel caminho
      else "[não foi possível extrair texto do formato: ".data ++ nome ++ [']']
    | none => extrairPorExtensao env c nome nivel caminho
  else extrairPorExtensao env c nome nivel caminho

/-! ### Context parsing (`extrair_info_contexto`, ocr.py 661-730) -/

structure Contexto where
  nivel : Nat
  caminho : List Char
  tipo : List Char
  menu : List Char
  categoria : List Char
  palavrasChave : List (List Char)
deriving Repr, DecidableEq

/-- The marker searched for a tag name: `"[" ++ name`. -/
def marcador (name : List Char) : List Char := '[' :: name

/-- `texto.split("[" + name)[1].split("]")[0]` guarded by
`if "[" + name in texto` (each field block of ocr.py 678-707). -/
def campo (name texto : List Char) : Option (List Char) :=
  if containsSeq (marcador name) texto then
    (pySplitSnd (marcador name) texto).map upToBracket
  else none

def termosImportantes : List (List Char) :=
  ["comunicado", "guia rápido", "assistência", "seguros",
   "atendimento", "procedimento", "telefone", "contato",
   "reembolso", "fluxo", "busca", "cliente"].map String.data

/-- `extrair_info_contexto` (ocr.py 661-730).  The `try/except: pass`
around each field keeps the default on any failure; `int()` failure is the
`parseNat?` `none` case. -/
def extrairInfoContexto (texto : List Char) : Contexto :=
  { nivel := ((campo "Nível ".data texto).bind parseNat?).getD 0
    caminho := (campo "Caminho: ".data texto).getD ['/']
    tipo := (campo "Tipo: ".data texto).getD "Desconhecido".data
    menu := (campo "Menu: ".data texto).getD []
    categoria := (campo "Categoria: ".data texto).getD []
    palavrasChave := termosImportantes.filter (fun t => containsSeq t (lower texto)) }

/-! ### Image preprocessing (`pre_processar_imagem`, ocr.py 15-64)

A PIL image is modelled as a single band of 8-bit pixel values in row-major
order plus its mode string.  Mode `'1'` images are represented with pixel
values 0/255, as PIL reports them.  The claims about this function concern
already-binarized (hence single-band) inputs, so the multi-band RGBA→RGB
collapse is represented as a pure mode change.

The external PIL operations are modelled after their documented/observable
semantics: `ImageEnhance.Contrast(img).enhance(2.0)` maps each pixel to
`clip(2*p - mean)` where `mean = int(average + 0.5)`; `MedianFilter(3)`
takes the rank-4 element of the 3x3 neighbourhood with edge replication;
`SHARPEN` convolves the interior with kernel `(-2 ... 32 ... -2)/16` and
copies border pixels; `point(lambda x: 255 if x > 128 else 0, mode='1')`
thresholds. -/

structure Img where
  mode : List Char
  pix : List (List Nat)
deriving Repr, DecidableEq

def gridGet (g : List (List Nat)) (i j : Nat) : Nat :=
  ((g[i]?.getD [])[j]?).getD 0

def clampByte (x : Int) : Nat := (max 0 (min x 255)).toNat

def clampIdx (x : Int) (n : Nat) : Nat := (max 0 (min x ((n : Int) - 1))).toNat

def mapLinhaIdx (f : Nat → Nat) : Nat → List Nat → List Nat
  | _, [] => []
  | j, _ :: rest => f j :: mapLinhaIdx f (j + 1) rest

def mapGridIdxFrom (f : Nat → Nat → Nat) : Nat → List (List Nat) → List (List Nat)
  | _, [] => []
  | i, row :: rest => mapLinhaIdx (f i) 0 row :: mapGridIdxFrom f (i + 1) rest

def mapGridIdx (f : Nat → Nat → Nat) (g : List (List Nat)) : List (List Nat) :=
  mapGridIdxFrom f 0 g

def mapPix (f : Nat → Nat) (g : List (List Nat)) : List (List Nat) :=
  g.map (fun row => row.map f)

def somaGrid (g : List (List Nat)) : Nat := (g.map List.sum).sum

def contaGrid (g : List (List Nat)) : Nat := (g.map List.length).sum

/-- `int(ImageStat.Stat(image.convert("L")).mean[0] + 0.5)`. -/
def mediaInt (g : List (List Nat)) : Nat :=
  (2 * somaGrid g + contaGrid g) / (2 * contaGrid g)

/-- One pixel of `ImageEnhance.Contrast(img).enhance(2.0)`. -/
def contrastePixel (media : Nat) (p : Nat) : Nat :=
  clampByte (2 * (p : Int) - (media : Int))

def contraste (g : List (List Nat)) : List (List Nat) :=
  mapPix (contrastePixel (mediaInt g)) g

def insereOrd (x : Nat) : List Nat → List Nat
  | [] => [x]
  | y :: rest => if x ≤ y then x :: y :: rest else y :: insereOrd x rest

def ordena (l : List Nat) : List Nat := l.foldr insereOrd []

/-- The 3x3 neighbourhood with edge replication (clamped indices). -/
def viz9 (g : List (List Nat)) (i j : Nat) : List Nat :=
  ([-1, 0, 1] : List Int).flatMap (fun di =>
    ([-1, 0, 1] : List Int).map (fun dj =>
      gridGet g (clampIdx ((i : Int) + di) g.length)
        (clampIdx ((j : Int) + dj) ((g[clampIdx ((i : Int) + di) g.length]?).getD []).length)))

/-- `ImageFilter.MedianFilter(size=3)`: rank 4 of the 9-window. -/
def medianaFilter (g : List (List Nat)) : List (List Nat) :=
  mapGridIdx (fun i j => ((ordena (viz9 g i j)).get? 4).getD 0) g

/-- The `ImageFilter.SHARPEN` convolution at an interior pixel:
`(32*center - 2*(sum of the 8 neighbours)) / 16`, clipped. -/
def nitidezPixel (g : List (List Nat)) (i j : Nat) : Nat :=
  let soma8 : Int :=
    (gridGet g (i-1) (j-1) : Int) + (gridGet g (i-1) j : Int) + (gridGet g (i-1) (j+1) : Int) +
    (gridGet g i (j-1) : Int) + (gridGet g i (j+1) : Int) +
    (gridGet g (i+1) (j-1) : Int) + (gridGet g (i+1) j : Int) + (gridGet g (i+1) (j+1) : Int)
  clampByte ((32 * (gridGet g i j : Int) - 2 * soma8) / 16)

/-- `img.filter(ImageFilter.SHARPEN)`: interior convolved, border copied. -/
def nitidezFilter (g : List (List Nat)) : List (List Nat) :=
  mapGridIdx (fun i j =>
    if i = 0 ∨ i = g.length - 1 ∨ j = 0 ∨ j = ((g[i]?).getD []).length - 1 then
      gridGet g i j
    else nitidezPixel g i j) g

/-- `point(lambda x: 255 if x > 128 else 0, mode='1')`. -/
def binarizaPix (g : List (List Nat)) : List (List Nat) :=
  mapPix (fun x => if x > 128 then 255 else 0) g

structure PreCfg where
  aumentar_contraste : Bool := true
  escala_cinza : Bool := true
  nitidez : Bool := true
  remover_ruido : Bool := true
  binarizacao : Bool := false
deriving Repr, DecidableEq

/-- `pre_processar_imagem` (ocr.py 15-64), with the fixed stage order:
alpha strip, grayscale, contrast, denoise, sharpen, binarize. -/
def preProcessarImagem (cfg : PreCfg) (img : Img) : Img :=
  let img := if img.mode = "RGBA".data then { img with mode := "RGB".data } else img
  let img := if cfg.escala_cinza then Img.mk "L".data img.pix else img
  let img := if cfg.aumentar_contraste then { img with pix := contraste img.pix } else img
  let img := if cfg.remover_ruido then { img with pix := medianaFilter img.pix } else img
  let img := if cfg.nitidez then { img with pix := nitidezFilter img.pix } else img
  let img := if cfg.binarizacao then Img.mk "1".data (binarizaPix img.pix) else img
  img

/-- All pixels are bilevel (0 or 255), i.e. the image is the result of a
binarization. -/
def binarizada (g : List (List Nat)) : Bool :=
  g.all (fun row => row.all (fun x => x = 0 || x = 255))

/-! ### Specification-side comparison definitions and concrete instances -/

/-- Written from the amended C4 claim: per page, the native text layer is
accepted verbatim when non-blank; otherwise the page's OCR text is accepted
only when it is neither empty nor the no-text sentinel (for a plain page
image that OCR text is the trimmed raw recognition); blocks keep page
order. -/
def blocosEsperadosSpec (i : Nat) : List Pagina → List (List Char)
  | [] => []
  | p :: rest =>
    let caud := blocosEsperadosSpec (i + 1) rest
    if strip p.nativo ≠ [] then (pdfHeader i ++ p.nativo) :: caud
    else if strip p.imagem.ocrRaw ≠ [] then
      (pdfHeaderOcr i ++ strip p.imagem.ocrRaw) :: caud
    else caud

/-- The two-level tree of the C2 scenario: `/A/file1.png`, `/A/B/file2.pdf`,
with `file1.png` listed before `B` in `A`'s single page. -/
def arvoreC2 : List (List Entry) :=
  [[.dir "A".data [[.file "file1.png".data, .dir "B".data [[.file "file2.pdf".data]]]]]]

/-- A root whose listing has a continuation page carrying a folder:
page 1 holds `f0.txt`; page 2 holds the folder `B` (containing `f1.txt`)
and `f2.txt`. -/
def arvoreC1 : List (List Entry) :=
  [[.file "f0.txt".data],
   [.dir "B".data [[.file "f1.txt".data]], .file "f2.txt".data]]

/-- An image with no recognizable text and no detected buttons. -/
def imagemMuda : Imagem := ⟨none, [], []⟩

/-- A PDF that PyMuPDF fails to open but that pdf2image would rasterize
into one page whose OCR reads `hello`. -/
def pdfC5 : Pdf :=
  ⟨none, "cannot open document".data, ⟨some [⟨none, "hello".data, []⟩], [], false⟩⟩

/-- The five tag markers the parser searches for. -/
def marcadores : List (List Char) :=
  [marcador "Nível ".data, marcador "Caminho: ".data, marcador "Tipo: ".data,
   marcador "Menu: ".data, marcador "Categoria: ".data]

/-- The interface-elements suffix the image extractor appends after the
text (ocr.py 178-184, 213-214); empty when no buttons were detected. -/
def botaoSufixo (botoes : List (List Char)) : List Char :=
  if botoes ≠ [] then
    '\n' :: joinSep ['\n']
      ("\n\nElementos de interface detectados:".data :: botoesLinhas 1 botoes)
  else []

/-- Conditions under which the tag `(t.1, t.2)` cannot host an occurrence
of the marker `'[' :: name`: the names disagree and neither name nor
payload contains `'['`. -/
def skipcond (name : List Char) (t : List Char × List Char) : Prop :=
  name.isPrefixOf t.1 = false ∧ t.1.isPrefixOf name = false ∧
    (∀ c ∈ t.1, c ≠ '[') ∧ (∀ c ∈ t.2, c ≠ '[')

/-! ## Theorems -/

/-! ### C2: crawl of the two-level tree with `max_files = 1` -/

/-- C2 (confirmed).  Crawling the tree `/A/file1.png`, `/A/B/file2.pdf`
(with `file1.png` listed before `B`) under `limite = 1` yields exactly one
record — `file1.png` with depth 1 and the recorded folder path `A` (the
normalized form of `/A`, scraper.py 182-184) — and the instrumented crawl,
whose file output coincides with the plain one, lists only `/` and `A` as
visited folders: the crawl halts before descending into `B` (whose
normalized path `A/B` is never requested). -/
theorem c2_limite_scenario :
    listarTodos arvoreC2 0 ['/'] (some 1) none =
      [⟨"file1.png".data, 1, "A".data, some "A".data, none⟩] ∧
    (listarTodosV arvoreC2 0 ['/'] (some 1) none).1 =
      listarTodos arvoreC2 0 ['/'] (some 1) none ∧
    (listarTodosV arvoreC2 0 ['/'] (some 1) none).2 = [['/'], "A".data] ∧
    "A/B".data ∉ (listarTodosV arvoreC2 0 ['/'] (some 1) none).2 := by
  simp only [arvoreC2, listarTodos, listarItens, listarTodosV, listarItensV]
  decide

/-! ### C1: counterexample — folders on continuation pages are dropped -/

/-- C1 counterexample.  In `arvoreC1` the folder `B` arrives on the root's
continuation page; its leaf `/B/f1.txt` (recorded path `B`) is a leaf file
of the tree, yet the crawl (no cap, no extension filter) does not return
it: the crawler's output is not the set of leaf files. -/
theorem c1_contra :
    ("f1.txt".data, 1, "B".data) ∈ folhas arvoreC1 [] ∧
    ("f1.txt".data, 1, "B".data) ∉ (listarTodos arvoreC1 0 ['/'] none none).map projArq ∧
    (listarTodos arvoreC1 0 ['/'] none none).map projArq =
      [("f0.txt".data, 0, ['/']), ("f2.txt".data, 0, ['/'])] := by
  simp only [arvoreC1, listarTodos, listarItens, folhas, folhasPagina]
  decide

/-! ### C5: no backend fallback on open failure -/

/-- C5 counterexample.  Both backends import, PyMuPDF fails to open the
document, pdf2image would extract `hello` — yet the extractor returns the
PyMuPDF error string instead of falling back to the alternate backend. -/
theorem c5_contra :
    extrairTextoDePdf ⟨true, true⟩ pdfC5 0 ['/'] "doc.pdf".data =
      "[erro ao processar PDF com PyMuPDF: cannot open document]".data ∧
    extrairTextoDePdfComPdf2image pdfC5.p2i 0 ['/'] "doc.pdf".data =
      "--- Página 1 ---\nhello".data ∧
    extrairTextoDePdf ⟨true, true⟩ pdfC5 0 ['/'] "doc.pdf".data ≠
      extrairTextoDePdfComPdf2image pdfC5.p2i 0 ['/'] "doc.pdf".data := by
  decide

/-- C5 (corrected).  The backend choice depends only on importability:
whenever `fitz` imports, the PyMuPDF path handles the file — including its
open failures, which yield the error string without trying pdf2image;
pdf2image runs only when `fitz` does not import; with neither library the
fixed no-library string is returned. -/
theorem c5_fallback_amended (env : PdfEnv) (pdf : Pdf) (nivel : Nat)
    (caminho nome : List Char) :
    (env.temFitz = true →
      extrairTextoDePdf env pdf nivel caminho nome =
        extrairTextoDePdfComPymupdf pdf.fitzDoc pdf.fitzErr nivel caminho nome) ∧
    (env.temFitz = false → env.temPdf2image = true →
      extrairTextoDePdf env pdf nivel caminho nome =
        extrairTextoDePdfComPdf2image pdf.p2i nivel caminho nome) ∧
    (env.temFitz = false → env.temPdf2image = false →
      extrairTextoDePdf env pdf nivel caminho nome =
        "[erro: nenhuma biblioteca de processamento de PDF está disponível]".data) := by
  refine ⟨fun h1 => ?_, fun h1 h2 => ?_, fun h1 h2 => ?_⟩
  · simp [extrairTextoDePdf, h1]
  · simp [extrairTextoDePdf, h1, h2]
  · simp [extrairTextoDePdf, h1, h2]

/-- Witness for `c5_fallback_amended` at concrete environments. -/
theorem c5_fallback_amended_witness :
    (extrairTextoDePdf ⟨true, true⟩ pdfC5 0 ['/'] [] =
      extrairTextoDePdfComPymupdf pdfC5.fitzDoc pdfC5.fitzErr 0 ['/'] []) ∧
    (extrairTextoDePdf ⟨false, true⟩ pdfC5 0 ['/'] [] =
      extrairTextoDePdfComPdf2image pdfC5.p2i 0 ['/'] []) ∧
    (extrairTextoDePdf ⟨false, false⟩ pdfC5 0 ['/'] [] =
      "[erro: nenhuma biblioteca de processamento de PDF está disponível]".data) :=
  ⟨(c5_fallback_amended ⟨true, true⟩ pdfC5 0 ['/'] []).1 rfl,
   (c5_fallback_amended ⟨false, true⟩ pdfC5 0 ['/'] []).2.1 rfl rfl,
   (c5_fallback_amended ⟨false, false⟩ pdfC5 0 ['/'] []).2.2 rfl rfl⟩

/-! ### C9: counterexample — re-application is not a no-op with denoise on -/

/-- C9 counterexample.  The 3x3 already-binarized image with an isolated
white centre: under the default configuration (denoise enabled, as the
claim's "every preprocessing configuration" includes) the second
application flips the centre pixel — the median filter removes it — so the
pass is not a no-op, not even on pixel content. -/
theorem c9_contra :
    binarizada [[0,0,0],[0,255,0],[0,0,0]] = true ∧
    (preProcessarImagem {} ⟨"1".data, [[0,0,0],[0,255,0],[0,0,0]]⟩).pix =
      [[0,0,0],[0,0,0],[0,0,0]] ∧
    (preProcessarImagem {} ⟨"1".data, [[0,0,0],[0,255,0],[0,0,0]]⟩).pix ≠
      [[0,0,0],[0,255,0],[0,0,0]] := by
  decide

/-! ### C4: counterexample — sentinel OCR pages are dropped, not accepted -/

/-- C4 counterexample.  A two-page PDF: page 1 has native text `A`, page 2
has no native text and OCRs to the no-text sentinel.  The claim says the
sentinel result is accepted and concatenated; the code instead omits
page 2 entirely, returning only page 1's block. -/
theorem c4_contra :
    extrairTextoDeImagemPIL imagemMuda 0 ['/'] = sentinelaImagem ∧
    extrairTextoDePdfComPymupdf (some [⟨"A".data, imagemMuda⟩, ⟨[], imagemMuda⟩])
        [] 0 ['/'] "doc.pdf".data = "--- Página 1 ---\nA".data ∧
    extrairTextoDePdfComPymupdf (some [⟨"A".data, imagemMuda⟩, ⟨[], imagemMuda⟩])
        [] 0 ['/'] "doc.pdf".data ≠
      "--- Página 1 ---\nA".data ++ "\n\n--- Página 2 (OCR) ---\n".data ++ sentinelaImagem := by
  decide

/-! ### C8: counterexample — context tags can prefix the trimmed text -/

/-- C8 counterexample.  A readable image whose recognized text contains the
keyword `comunicado`: the extractor returns the text with a `[Tipo: ...]`
tag prepended, not the trimmed recognized text itself. -/
theorem c8_contra :
    strip "comunicado x".data = "comunicado x".data ∧
    extrairTextoDeImagemCore ⟨none, "comunicado x".data, []⟩
        "arquivo_binario.png".data 0 ['/'] = "[Tipo: Comunicado]\n\ncomunicado x".data ∧
    extrairTextoDeImagemCore ⟨none, "comunicado x".data, []⟩
        "arquivo_binario.png".data 0 ['/'] ≠ "comunicado x".data := by
  decide

/-! ### C10: the context parser is total with per-field defaults -/

/-- C10 (confirmed).  `extrair_info_contexto` is total by construction
(every risky operation sits in a `try/except: pass`, embedded as
`Option` with `getD`); for every input string each field falls back to its
default — level 0, path `/`, type `Desconhecido`, empty menu and category —
whenever its tag is absent or (for the level) its payload does not parse as
an integer. -/
theorem c10_parser_total (texto : List Char) :
    ((campo "Nível ".data texto).bind parseNat? = none →
      (extrairInfoContexto texto).nivel = 0) ∧
    (campo "Caminho: ".data texto = none →
      (extrairInfoContexto texto).caminho = ['/']) ∧
    (campo "Tipo: ".data texto = none →
      (extrairInfoContexto texto).tipo = "Desconhecido".data) ∧
    (campo "Menu: ".data texto = none →
      (extrairInfoContexto texto).menu = []) ∧
    (campo "Categoria: ".data texto = none →
      (extrairInfoContexto texto).categoria = []) := by
  refine ⟨fun h => ?_, fun h => ?_, fun h => ?_, fun h => ?_, fun h => ?_⟩ <;>
    simp [extrairInfoContexto, h]

/-- Witness for `c10_parser_total` at the malformed input `[Nível x] abc`:
the level tag is present but unparsable, the other tags are absent, and
every field of the parsed record is its default. -/
theorem c10_parser_total_witness :
    (extrairInfoContexto "[Nível x] abc".data).nivel = 0 ∧
    (extrairInfoContexto "[Nível x] abc".data).caminho = ['/'] ∧
    (extrairInfoContexto "[Nível x] abc".data).tipo = "Desconhecido".data ∧
    (extrairInfoContexto "[Nível x] abc".data).menu = [] ∧
    (extrairInfoContexto "[Nível x] abc".data).categoria = [] :=
  ⟨(c10_parser_total _).1 (by decide), (c10_parser_total _).2.1 (by decide),
   (c10_parser_total _).2.2.1 (by decide), (c10_parser_total _).2.2.2.1 (by decide),
   (c10_parser_total _).2.2.2.2 (by decide)⟩

/-! ### C6: bounded retry -/

theorem tentativasAux_le (o : Nat → Option (List Char)) (maxT : Nat) :
    ∀ fuel t, (tentativasAux o maxT fuel t).2.1 ≤ fuel := by
  intro fuel
  induction fuel with
  | zero => intro t; simp [tentativasAux]
  | succ k ih =>
    intro t
    simp only [tentativasAux]
    split
    · cases h : o t with
      | some c => simp
      | none => simpa using Nat.succ_le_succ (ih (t + 1))
    · simp

theorem tentativasAux_none (o : Nat → Option (List Char)) (maxT : Nat)
    (h : ∀ i, o i = none) :
    ∀ fuel t, maxT - t = fuel → tentativasAux o maxT fuel t = (none, fuel, 2 * (fuel - 1)) := by
  intro fuel
  induction fuel with
  | zero => intro t _; simp [tentativasAux]
  | succ k ih =>
    intro t hft
    have ht : t < maxT := by omega
    simp only [tentativasAux, if_pos ht, h t]
    rw [ih (t + 1) (by omega)]
    cases k with
    | zero =>
      have : ¬ t < maxT - 1 := by omega
      simp [this]
    | succ m =>
      have : t < maxT - 1 := by omega
      simp [this]
      omega

/-- C6 (confirmed).  The download loop performs at most `max_tentativas`
attempts; an oracle failing twice then succeeding yields the payload after
exactly 3 attempts (with two fixed 2-second sleeps between them); an oracle
that always fails exhausts exactly `max_tentativas` attempts (sleeping 2
seconds between consecutive ones) and returns failure, and the file is then
omitted from the `baixar_arquivos` result. -/
theorem c6_retry :
    (∀ (o : Nat → Option (List Char)) (maxT : Nat),
      (tentativas o maxT 0).2.1 ≤ maxT) ∧
    (∀ (o : Nat → Option (List Char)) (c : List Char),
      o 0 = none → o 1 = none → o 2 = some c →
      tentativas o 3 0 = (some c, 3, 4)) ∧
    (∀ (o : Nat → Option (List Char)) (maxT : Nat), (∀ i, o i = none) →
      tentativas o maxT 0 = (none, maxT, 2 * (maxT - 1))) ∧
    (∀ (a : ArquivoRef) (o : List Char → Nat → Option (List Char)),
      a.temLink = true → (∀ i, o a.name i = none) →
      baixarArquivos o [a] none 3 = []) := by
  refine ⟨?_, ?_, ?_, ?_⟩
  · intro o maxT
    simpa [tentativas] using tentativasAux_le o maxT maxT 0
  · intro o c h0 h1 h2
    simp [tentativas, tentativasAux, h0, h1, h2]
  · intro o maxT h
    simpa [tentativas] using tentativasAux_none o maxT h maxT 0 (by omega)
  · intro a o hl h
    have hnone : (tentativas (o a.name) 3 0).1 = none := by
      have := tentativasAux_none (o a.name) 3 h 3 0 (by omega)
      simp [tentativas, this]
    by_cases hf : (extensoesPadrao.map lower).any (fun e => endsWithSeq e (lower a.name))
    · simp [baixarArquivos, List.filter, hf, baixarLoop, hl, hnone]
    · simp [baixarArquivos, List.filter, hf, baixarLoop]

/-- Witness for `c6_retry` at concrete oracles. -/
theorem c6_retry_witness :
    (tentativas (fun i => if i < 2 then none else some ['c']) 3 0).2.1 ≤ 3 ∧
    tentativas (fun i => if i < 2 then none else some ['c']) 3 0 = (some ['c'], 3, 4) ∧
    tentativas (fun _ => none) 5 0 = (none, 5, 8) ∧
    baixarArquivos (fun _ _ => none) [⟨"a.pdf".data, true, 0, ['/'], []⟩] none 3 = [] :=
  ⟨c6_retry.1 _ 3,
   c6_retry.2.1 _ ['c'] rfl rfl rfl,
   c6_retry.2.2.1 _ 5 (fun _ => rfl),
   c6_retry.2.2.2 ⟨"a.pdf".data, true, 0, ['/'], []⟩ _ rfl (fun _ => rfl)⟩

/-! ### C7: MIME-first dispatch -/

/-- C7 (confirmed).  When the sniff yields a truthy MIME type the dispatcher
routes by MIME family alone — an image-sniffed payload goes to the image
extractor for every file name, `.pdf` included; a recognized-family miss
returns the unsupported-format string without consulting the extension —
and extension matching runs exactly when the sniff is unavailable (`none`)
or yields nothing (empty string). -/
theorem c7_dispatch (env : PdfEnv) (c : Conteudo) (nomeArquivo : List Char)
    (nivel : Nat) (caminho : List Char) :
    (∀ m, c.mime = some m → m ≠ [] → containsSeq "image".data m = true →
      extrairTextoDeArquivo env c nomeArquivo nivel caminho =
        extrairTextoDeImagemBytes c.imagem nivel caminho) ∧
    (∀ m, c.mime = some m → m ≠ [] → containsSeq "image".data m = false →
      containsSeq "pdf".data m = true →
      extrairTextoDeArquivo env c nomeArquivo nivel caminho =
        extrairTextoDePdf env c.pdf nivel caminho "arquivo.pdf".data) ∧
    (∀ m, c.mime = some m → m ≠ [] → containsSeq "image".data m = false →
      containsSeq "pdf".data m = false → containsSeq "text".data m = true →
      extrairTextoDeArquivo env c nomeArquivo nivel caminho =
        textoComNivelCaminho c.texto nivel caminho) ∧
    (∀ m, c.mime = some m → m ≠ [] → containsSeq "image".data m = false →
      containsSeq "pdf".data m = false → containsSeq "text".data m = false →
      extrairTextoDeArquivo env c nomeArquivo nivel caminho =
        "[não foi possível extrair texto do formato: ".data ++ lower nomeArquivo ++ [']']) ∧
    (c.mime = none →
      extrairTextoDeArquivo env c nomeArquivo nivel caminho =
        extrairPorExtensao env c (lower nomeArquivo) nivel caminho) ∧
    (c.mime = some [] →
      extrairTextoDeArquivo env c nomeArquivo nivel caminho =
        extrairPorExtensao env c (lower nomeArquivo) nivel caminho) := by
  refine ⟨?_, ?_, ?_, ?_, ?_, ?_⟩
  · intro m hm hne himg
    cases m with
    | nil => exact absurd rfl hne
    | cons a l => simp [extrairTextoDeArquivo, hm, himg]
  · intro m hm hne himg hpdf
    cases m with
    | nil => exact absurd rfl hne
    | cons a l => simp [extrairTextoDeArquivo, hm, himg, hpdf]
  · intro m hm hne himg hpdf htxt
    cases m with
    | nil => exact absurd rfl hne
    | cons a l => simp [extrairTextoDeArquivo, hm, himg, hpdf, htxt]
  · intro m hm hne himg hpdf htxt
    cases m with
    | nil => exact absurd rfl hne
    | cons a l => simp [extrairTextoDeArquivo, hm, himg, hpdf, htxt]
  · intro hm
    simp [extrairTextoDeArquivo, hm]
  · intro hm
    simp [extrairTextoDeArquivo, hm]

/-- Witness for `c7_dispatch`: an image-sniffed payload named `x.pdf` is
routed to the image extractor; the same payload with no sniff falls back to
extension dispatch. -/
theorem c7_dispatch_witness :
    extrairTextoDeArquivo ⟨true, true⟩
        ⟨some "image/png".data, imagemMuda, pdfC5, []⟩ "x.pdf".data 0 ['/'] =
      extrairTextoDeImagemBytes imagemMuda 0 ['/'] ∧
    extrairTextoDeArquivo ⟨true, true⟩
        ⟨none, imagemMuda, pdfC5, []⟩ "x.pdf".data 0 ['/'] =
      extrairPorExtensao ⟨true, true⟩ ⟨none, imagemMuda, pdfC5, []⟩
        (lower "x.pdf".data) 0 ['/'] :=
  ⟨(c7_dispatch ⟨true, true⟩ ⟨some "image/png".data, imagemMuda, pdfC5, []⟩
      "x.pdf".data 0 ['/']).1 "image/png".data rfl (by decide) (by decide),
   (c7_dispatch ⟨true, true⟩ ⟨none, imagemMuda, pdfC5, []⟩
      "x.pdf".data 0 ['/']).2.2.2.2.1 rfl⟩

/-! ### C8: image extractor output contract -/

/-- With default provenance, no buttons and no tag keywords, the image
extractor returns the trimmed recognition, or the sentinel when it is
empty. -/
theorem imagemPlana_eval (img : Imagem) (nome : List Char)
    (h1 : img.erroAbrir = none) (h2 : img.botoes = [])
    (h3 : tipoTag (lower nome) (lower (strip img.ocrRaw)) = none)
    (h4 : menuCatTag (lower (strip img.ocrRaw)) = none) :
    extrairTextoDeImagemCore img nome 0 ['/'] =
      if strip img.ocrRaw = [] then sentinelaImagem else strip img.ocrRaw := by
  have hctx : contextoList 0 ['/'] (lower nome) (lower (strip img.ocrRaw)) = [] := by
    simp [contextoList, nivelTagOpt, caminhoTagOpt, h3, h4]
  by_cases hv : strip img.ocrRaw = []
  · rw [hv] at hctx
    simp [extrairTextoDeImagemCore, h1, h2, hctx, comContexto, ouSentinela, hv]
  · simp [extrairTextoDeImagemCore, h1, h2, hctx, comContexto, ouSentinela, hv]

theorem ouSentinela_id (s : List Char) (h : s ≠ []) : ouSentinela s = s := by
  simp [ouSentinela, h]

theorem ouSentinela_nil : ouSentinela [] = sentinelaImagem := by
  simp [ouSentinela]

theorem comContexto_nil (raw : List Char) : comContexto [] raw = raw := by
  simp [comContexto]

/-- The extractor's output on an opened image, in terms of the trimmed
recognition, the context-tag list and the button suffix (ocr.py 146-217). -/
theorem core_eval_geral (ocr : List Char) (botoes : List (List Char))
    (nome : List Char) (nivel : Nat) (caminho : List Char) :
    extrairTextoDeImagemCore ⟨none, ocr, botoes⟩ nome nivel caminho =
      ouSentinela (comContexto (contextoList nivel caminho (lower nome)
        (lower (strip ocr))) (strip ocr) ++ botaoSufixo botoes) := by
  by_cases hb : botoes = [] <;>
    simp [extrairTextoDeImagemCore, botaoSufixo, hb]

/-- C8 (corrected).  The extractor never returns an empty string and never
raises (it is a total function of the abstracted OCR outcome).  A
merely-unreadable image yields exactly the sentinel
`[imagem sem texto legível]` precisely when no context tag applies and no
interface buttons were detected; when a tag or a button does apply, the
output — even for an unreadable image — is the tag prefix and/or the
interface-elements suffix assembled around the trimmed text (ocr.py
186-217 builds both before the emptiness test).  A readable image yields
exactly the trimmed recognized text when no tag applies and no buttons
are detected. -/
theorem c8_imagem_amended (ocr : List Char) (botoes : List (List Char))
    (nome : List Char) (nivel : Nat) (caminho : List Char) :
    extrairTextoDeImagemCore ⟨none, ocr, botoes⟩ nome nivel caminho ≠ [] ∧
    (contextoList nivel caminho (lower nome) (lower (strip ocr)) = [] →
      botoes = [] → strip ocr = [] →
      extrairTextoDeImagemCore ⟨none, ocr, botoes⟩ nome nivel caminho =
        sentinelaImagem) ∧
    (contextoList nivel caminho (lower nome) (lower (strip ocr)) ≠ [] ∨
        botoes ≠ [] ∨ strip ocr ≠ [] →
      extrairTextoDeImagemCore ⟨none, ocr, botoes⟩ nome nivel caminho =
        comContexto (contextoList nivel caminho (lower nome) (lower (strip ocr)))
          (strip ocr) ++ botaoSufixo botoes) ∧
    (contextoList nivel caminho (lower nome) (lower (strip ocr)) = [] →
      botoes = [] → strip ocr ≠ [] →
      extrairTextoDeImagemCore ⟨none, ocr, botoes⟩ nome nivel caminho =
        strip ocr) := by
  have hsent : ∀ t : List Char, ouSentinela t ≠ [] := by
    intro t
    unfold ouSentinela
    split
    · assumption
    · decide
  refine ⟨?_, ?_, ?_, ?_⟩
  · rw [core_eval_geral]
    exact hsent _
  · intro hc hb hv
    rw [core_eval_geral, hc, hv, comContexto_nil, hb]
    simp [botaoSufixo, ouSentinela]
  · intro h
    rw [core_eval_geral]
    apply ouSentinela_id
    rcases h with h | h | h
    · simp [comContexto, h]
    · simp [botaoSufixo, h]
    · by_cases hctx :
        contextoList nivel caminho (lower nome) (lower (strip ocr)) = []
      · simp [comContexto, hctx, h]
      · simp [comContexto, hctx]
  · intro hc hb hv
    rw [core_eval_geral, hc, hb, comContexto_nil]
    simp [botaoSufixo, ouSentinela, hv]

/-- Witness for `c8_imagem_amended`: a plain readable image returns its
trimmed text; a blank one returns the sentinel; an unreadable image whose
name matches the `guia` keyword returns the tag prefix around the empty
text, not the sentinel. -/
theorem c8_imagem_amended_witness :
    extrairTextoDeImagemCore ⟨none, " hello ".data, []⟩
      "arquivo_binario.png".data 0 ['/'] ≠ [] ∧
    extrairTextoDeImagemCore ⟨none, "  ".data, []⟩
      "arquivo_binario.png".data 0 ['/'] = sentinelaImagem ∧
    extrairTextoDeImagemCore ⟨none, [], []⟩ "guia.png".data 0 ['/'] =
      "[Tipo: Guia]\n\n".data ∧
    extrairTextoDeImagemCore ⟨none, " hello ".data, []⟩
      "arquivo_binario.png".data 0 ['/'] = "hello".data := by
  refine ⟨?_, ?_, ?_, ?_⟩
  · exact (c8_imagem_amended " hello ".data [] "arquivo_binario.png".data 0 ['/']).1
  · exact (c8_imagem_amended "  ".data [] "arquivo_binario.png".data 0 ['/']).2.1
      (by decide) rfl (by decide)
  · exact ((c8_imagem_amended [] [] "guia.png".data 0 ['/']).2.2.1
      (Or.inl (by decide))).trans (by decide)
  · exact ((c8_imagem_amended " hello ".data [] "arquivo_binario.png".data 0
      ['/']).2.2.2 (by decide) rfl (by decide)).trans (by decide)

/-! ### C1: the crawler against the leaf-file specification -/

theorem rds_cons (c : Char) (hc : c ≠ '/') (s : List Char) :
    replaceDS (c :: s) = c :: replaceDS s := by
  cases s with
  | nil => rfl
  | cons d s' => simp [replaceDS, hc]

theorem rds_seg (seg : List Char) (hs : ∀ c ∈ seg, c ≠ '/') (s : List Char) :
    replaceDS (seg ++ s) = seg ++ replaceDS s := by
  induction seg with
  | nil => rfl
  | cons c seg' ih =>
    rw [List.cons_append, rds_cons c (hs c (by simp)) _,
      ih (fun d hd => hs d (by simp [hd]))]
    simp

theorem rds_noslash (s : List Char) (hs : ∀ c ∈ s, c ≠ '/') : replaceDS s = s := by
  have := rds_seg s hs []
  simpa [replaceDS] using this

theorem caminhoTail_append_nome (anc : List (List Char))
    (hanc : ∀ a ∈ anc, a ≠ [] ∧ ∀ c ∈ a, c ≠ '/')
    (nome : List Char) (hn1 : nome ≠ []) (hn2 : ∀ c ∈ nome, c ≠ '/') :
    replaceDS (caminhoTail anc ++ '/' :: nome) = caminhoTail (anc ++ [nome]) := by
  induction anc with
  | nil =>
    cases nome with
    | nil => exact absurd rfl hn1
    | cons c n' =>
      have hc : c ≠ '/' := hn2 c (by simp)
      simp only [caminhoTail, List.nil_append]
      rw [show replaceDS ('/' :: c :: n') = '/' :: replaceDS (c :: n') from by
          simp [replaceDS, hc],
        rds_noslash _ (fun d hd => hn2 d hd)]
      simp [caminhoTail]
  | cons a anc' ih =>
    obtain ⟨ha1, ha2⟩ := hanc a (by simp)
    cases a with
    | nil => exact absurd rfl ha1
    | cons c a' =>
      have hc : c ≠ '/' := ha2 c (by simp)
      simp only [caminhoTail, List.cons_append, List.append_assoc]
      rw [show replaceDS ('/' :: c :: (a' ++ (caminhoTail anc' ++ '/' :: nome))) =
            '/' :: replaceDS (c :: (a' ++ (caminhoTail anc' ++ '/' :: nome))) from by
          simp [replaceDS, hc],
        rds_cons c hc, rds_seg a' (fun d hd => ha2 d (by simp [hd])),
        ih (fun b hb => hanc b (by simp [hb]))]
      rfl

theorem rds_caminhoTail (anc : List (List Char))
    (hanc : ∀ a ∈ anc, a ≠ [] ∧ ∀ c ∈ a, c ≠ '/') :
    replaceDS (caminhoTail anc) = caminhoTail anc := by
  induction anc with
  | nil => rfl
  | cons a anc' ih =>
    obtain ⟨ha1, ha2⟩ := hanc a (by simp)
    cases a with
    | nil => exact absurd rfl ha1
    | cons c a' =>
      have hc : c ≠ '/' := ha2 c (by simp)
      simp only [caminhoTail, List.cons_append]
      rw [show replaceDS ('/' :: c :: (a' ++ caminhoTail anc')) =
            '/' :: replaceDS (c :: (a' ++ caminhoTail anc')) from by
          simp [replaceDS, hc],
        rds_cons c hc, rds_seg a' (fun d hd => ha2 d (by simp [hd])),
        ih (fun b hb => hanc b (by simp [hb]))]

theorem normaliza_noSlashHead (c : Char) (hc : c ≠ '/') (s : List Char)
    (hrds : replaceDS (c :: s) = c :: s) :
    normalizaCaminho (c :: s) = c :: s := by
  simp [normalizaCaminho, hrds, hc]

theorem normaliza_caminhoDe (anc : List (List Char))
    (hanc : ∀ a ∈ anc, a ≠ [] ∧ ∀ c ∈ a, c ≠ '/') :
    normalizaCaminho (caminhoDe anc) = caminhoDe anc := by
  cases anc with
  | nil => rfl
  | cons a anc' =>
    obtain ⟨ha1, ha2⟩ := hanc a (by simp)
    cases a with
    | nil => exact absurd rfl ha1
    | cons c a' =>
      have hc : c ≠ '/' := ha2 c (by simp)
      simp only [caminhoDe, List.cons_append]
      exact normaliza_noSlashHead c hc _ (by
        rw [rds_cons c hc, rds_seg a' (fun d hd => ha2 d (by simp [hd])),
          rds_caminhoTail anc' (fun b hb => hanc b (by simp [hb]))])

/-- The composition the recursion performs: joining a well-formed folder
name onto the (already normalized) current path and normalizing at the
callee reproduces the specification path of the extended ancestor list. -/
theorem normalizaNova (anc : List (List Char))
    (hanc : ∀ a ∈ anc, a ≠ [] ∧ ∀ c ∈ a, c ≠ '/')
    (nome : List Char) (hn1 : nome ≠ []) (hn2 : ∀ c ∈ nome, c ≠ '/') :
    normalizaCaminho (novaPasta (caminhoDe anc) nome) = caminhoDe (anc ++ [nome]) := by
  cases anc with
  | nil =>
    cases nome with
    | nil => exact absurd rfl hn1
    | cons c n' =>
      have hc : c ≠ '/' := hn2 c (by simp)
      have h1 : novaPasta (caminhoDe []) (c :: n') = '/' :: c :: n' := by
        simp only [novaPasta, caminhoDe, List.cons_append, List.nil_append, replaceDS]
        rw [if_pos (by simp), rds_noslash _ (fun d hd => hn2 d hd)]
      rw [h1]
      have hrds : replaceDS ('/' :: c :: n') = '/' :: c :: n' := by
        rw [show replaceDS ('/' :: c :: n') = '/' :: replaceDS (c :: n') from by
            simp [replaceDS, hc],
          rds_noslash _ (fun d hd => hn2 d hd)]
      simp [normalizaCaminho, hrds, caminhoDe, caminhoTail]
  | cons a anc' =>
    obtain ⟨ha1, ha2⟩ := hanc a (by simp)
    have hancT : ∀ b ∈ anc' ++ [nome], b ≠ [] ∧ ∀ c ∈ b, c ≠ '/' := by
      intro b hb
      rcases List.mem_append.mp hb with h | h
      · exact hanc b (by simp [h])
      · simp only [List.mem_singleton] at h
        exact h ▸ ⟨hn1, hn2⟩
    have h1 : novaPasta (caminhoDe (a :: anc')) nome =
        a ++ caminhoTail (anc' ++ [nome]) := by
      simp only [novaPasta, caminhoDe, List.append_assoc]
      rw [rds_seg a (fun d hd => ha2 d hd),
        caminhoTail_append_nome anc' (fun b hb => hanc b (by simp [hb])) nome hn1 hn2]
    rw [h1]
    cases a with
    | nil => exact absurd rfl ha1
    | cons c a' =>
      have hc : c ≠ '/' := ha2 c (by simp)
      rw [show (c :: a') ++ caminhoTail (anc' ++ [nome]) =
            c :: (a' ++ caminhoTail (anc' ++ [nome])) from rfl,
        normaliza_noSlashHead c hc _ (by
          rw [rds_cons c hc, rds_seg a' (fun d hd => ha2 d (by simp [hd])),
            rds_caminhoTail (anc' ++ [nome]) hancT])]
      simp [caminhoDe]

/-- `listar_todos_os_arquivos` depends on its `caminho_pasta` argument only
through the per-call normalization. -/
theorem listarTodos_congr (pages : List (List Entry)) (nivel : Nat)
    (p q : List Char) (limite : Option Nat) (filtrar : Option (List (List Char)))
    (h : normalizaCaminho p = normalizaCaminho q) :
    listarTodos pages nivel p limite filtrar =
      listarTodos pages nivel q limite filtrar := by
  cases pages with
  | nil => simp [listarTodos]
  | cons page0 rest => simp [listarTodos, h]

theorem projArq_marcaPai (nome : List Char) (l : List Arq) :
    (l.map (marcaPai nome)).map projArq = l.map projArq := by
  rw [List.map_map]
  rfl

theorem pagina_spec (anc : List (List Char)) (items : List Entry)
    (h : items.all entradaArquivo = true) (acc : List Arq) :
    (pagina none none anc.length (caminhoDe anc) items acc).map projArq =
      acc.map projArq ++ folhasPagina items anc := by
  induction items generalizing acc with
  | nil => simp [pagina, folhasPagina]
  | cons item rest ih =>
    cases item with
    | dir nome sub => simp [entradaArquivo] at h
    | file nome =>
      simp only [List.all_cons, Bool.and_eq_true, entradaArquivo] at h
      rw [show pagina none none anc.length (caminhoDe anc) (Entry.file nome :: rest) acc =
            pagina none none anc.length (caminhoDe anc) rest
              (acc ++ [⟨nome, anc.length, caminhoDe anc, none, none⟩]) from by
          simp [pagina, capReached, passaFiltro],
        ih h.2, folhasPagina]
      simp [projArq]

theorem paginacao_spec (anc : List (List Char)) (pages : List (List Entry))
    (h : pages.all (fun p => p.all entradaArquivo) = true) (acc : List Arq) :
    (paginacao none none anc.length (caminhoDe anc) pages acc).map projArq =
      acc.map projArq ++ folhas pages anc := by
  induction pages generalizing acc with
  | nil => simp [paginacao, folhas]
  | cons p rest ih =>
    simp only [List.all_cons, Bool.and_eq_true] at h
    rw [show paginacao none none anc.length (caminhoDe anc) (p :: rest) acc =
          paginacao none none anc.length (caminhoDe anc) rest
            (pagina none none anc.length (caminhoDe anc) p acc) from by
        simp [paginacao, capReached],
      ih h.2, pagina_spec anc p h.1 acc, folhas]
    simp

/-- Both components of the crawler/specification correspondence, by strong
induction on the size of the (nested) tree argument. -/
theorem crawl_spec_aux (n : Nat) :
    (∀ (pages : List (List Entry)) (anc : List (List Char)), sizeOf pages = n →
      (∀ a ∈ anc, a ≠ [] ∧ ∀ c ∈ a, c ≠ '/') →
      nomesOk pages = true → pastasNaPrimeiraPagina pages = true →
      (listarTodos pages anc.length (caminhoDe anc) none none).map projArq =
        folhas pages anc) ∧
    (∀ (items : List Entry) (anc : List (List Char)) (acc : List Arq),
      sizeOf items = n →
      (∀ a ∈ anc, a ≠ [] ∧ ∀ c ∈ a, c ≠ '/') →
      nomesOkPagina items = true → pastasPagina items = true →
      (listarItens items anc.length (caminhoDe anc) none none acc).map projArq =
        acc.map projArq ++ folhasPagina items anc) := by
  induction n using Nat.strong_induction_on with
  | _ n ih =>
    constructor
    · intro pages anc hsz hanc hw hf
      cases pages with
      | nil => simp [listarTodos, folhas]
      | cons page0 rest =>
        have hw' := hw
        simp only [nomesOk, Bool.and_eq_true] at hw'
        have hf' := hf
        simp only [pastasNaPrimeiraPagina, Bool.and_eq_true] at hf'
        have h0 : sizeOf page0 < n := by subst hsz; simp; try omega
        have hitens := (ih (sizeOf page0) h0).2 page0 anc [] rfl hanc hw'.1 hf'.1
        rw [show listarTodos (page0 :: rest) anc.length (caminhoDe anc) none none =
              paginacao none none anc.length (caminhoDe anc) rest
                (listarItens page0 anc.length (caminhoDe anc) none none []) from by
            simp [listarTodos, normaliza_caminhoDe anc hanc],
          paginacao_spec anc rest hf'.2 _, hitens, folhas]
        simp
    · intro items anc acc hsz hanc hw hf
      cases items with
      | nil => simp [listarItens, folhasPagina]
      | cons item rest =>
        cases item with
        | file nome =>
          have hw' := hw
          simp only [nomesOkPagina] at hw'
          have hf' := hf
          simp only [pastasPagina] at hf'
          have h0 : sizeOf rest < n := by subst hsz; simp; try omega
          have hrec := (ih (sizeOf rest) h0).2 rest anc
            (acc ++ [⟨nome, anc.length, caminhoDe anc, none,
              categoriaArquivo (lower nome)⟩]) rfl hanc hw' hf'
          rw [show listarItens (Entry.file nome :: rest) anc.length (caminhoDe anc)
                none none acc =
              listarItens rest anc.length (caminhoDe anc) none none
                (acc ++ [⟨nome, anc.length, caminhoDe anc, none,
                  categoriaArquivo (lower nome)⟩]) from by
              simp [listarItens, capReached, passaFiltro],
            hrec, folhasPagina]
          simp [projArq]
        | dir nome sub =>
          have hw' := hw
          simp only [nomesOkPagina, Bool.and_eq_true] at hw'
          obtain ⟨⟨⟨hn1, hn2⟩, hsub⟩, hrest⟩ := hw'
          have hf' := hf
          simp only [pastasPagina, Bool.and_eq_true] at hf'
          have hn1' : nome ≠ [] := by
            intro hcon; rw [hcon] at hn1; simp at hn1
          have hn2' : ∀ c ∈ nome, c ≠ '/' := by
            intro c hc
            have := List.all_eq_true.mp hn2 c hc
            simpa using this
          have hancx : ∀ a ∈ anc ++ [nome], a ≠ [] ∧ ∀ c ∈ a, c ≠ '/' := by
            intro a ha
            rcases List.mem_append.mp ha with h | h
            · exact hanc a h
            · simp only [List.mem_singleton] at h
              exact h ▸ ⟨hn1', hn2'⟩
          have hs1 : sizeOf sub < n := by subst hsz; simp; try omega
          have hs2 : sizeOf rest < n := by subst hsz; simp; try omega
          have hsubeq := (ih (sizeOf sub) hs1).1 sub (anc ++ [nome]) rfl hancx hsub hf'.1
          have hrec := (ih (sizeOf rest) hs2).2 rest anc
            (acc ++ (listarTodos sub (anc ++ [nome]).length
              (caminhoDe (anc ++ [nome])) none none).map (marcaPai nome))
            rfl hanc hrest hf'.2
          rw [show listarItens (Entry.dir nome sub :: rest) anc.length (caminhoDe anc)
                none none acc =
              listarItens rest anc.length (caminhoDe anc) none none
                (acc ++ (listarTodos sub (anc.length + 1)
                  (novaPasta (caminhoDe anc) nome) none none).map (marcaPai nome)) from by
              simp [listarItens, capReached],
            listarTodos_congr sub (anc.length + 1) (novaPasta (caminhoDe anc) nome)
              (caminhoDe (anc ++ [nome])) none none
              (by rw [normalizaNova anc hanc nome hn1' hn2',
                normaliza_caminhoDe (anc ++ [nome]) hancx]),
            show anc.length + 1 = (anc ++ [nome]).length by simp,
            hrec, folhasPagina, List.map_append, projArq_marcaPai, hsubeq]
          simp

/-- C1 (corrected).  With well-formed folder names and — as the
counterexample forces — every folder delivered on the first page of its
parent's listing, the crawl (no cap, no filter) returns exactly the leaf
files of the tree, each tagged with its true nesting depth and the
slash-joined ancestor folder names as the program normalizes them
(`/` for root-level files, `A`, `A/B`, … below); files on continuation
pages are included, but folders there are not descended into. -/
theorem c1_crawler_amended (pages : List (List Entry))
    (hw : nomesOk pages = true) (hf : pastasNaPrimeiraPagina pages = true) :
    (listarTodos pages 0 ['/'] none none).map projArq = folhas pages [] := by
  have := (crawl_spec_aux (sizeOf pages)).1 pages [] rfl (by simp) hw hf
  simpa [caminhoDe] using this

/-- Witness for `c1_crawler_amended` on a concrete two-page tree. -/
theorem c1_crawler_amended_witness :
    (listarTodos [[.dir "Guias".data [[.file "g.pdf".data]], .file "root.txt".data],
        [.file "p2.txt".data]] 0 ['/'] none none).map projArq =
      folhas [[.dir "Guias".data [[.file "g.pdf".data]], .file "root.txt".data],
        [.file "p2.txt".data]] [] :=
  c1_crawler_amended _
    (by simp only [nomesOk, nomesOkPagina]; decide)
    (by simp only [pastasNaPrimeiraPagina, pastasPagina]; decide)

/-! ### C4: the PyMuPDF per-page state machine -/

/-- A page whose render is a plain image: it opens, has no buttons, its
recognition triggers no tag keyword and does not literally read as the
sentinel text. -/
def paginaPlana (p : Pagina) : Prop :=
  p.imagem.erroAbrir = none ∧ p.imagem.botoes = [] ∧
  tipoTag (lower "imagem.png".data) (lower (strip p.imagem.ocrRaw)) = none ∧
  menuCatTag (lower (strip p.imagem.ocrRaw)) = none ∧
  strip p.imagem.ocrRaw ≠ sentinelaImagem

theorem pymupdfTextos_spec (paginas : List Pagina)
    (hp : ∀ p ∈ paginas, paginaPlana p) (i : Nat) :
    pymupdfTextos 0 ['/'] i paginas = blocosEsperadosSpec i paginas := by
  induction paginas generalizing i with
  | nil => simp [pymupdfTextos, blocosEsperadosSpec]
  | cons p rest ih =>
    obtain ⟨h1, h2, h3, h4, h5⟩ := hp p (by simp)
    have hrest : ∀ q ∈ rest, paginaPlana q := fun q hq => hp q (by simp [hq])
    have hocr : extrairTextoDeImagemPIL p.imagem 0 ['/'] =
        if strip p.imagem.ocrRaw = [] then sentinelaImagem else strip p.imagem.ocrRaw :=
      imagemPlana_eval p.imagem "imagem.png".data h1 h2 h3 h4
    simp only [pymupdfTextos, blocosEsperadosSpec, hocr, ih hrest]
    by_cases hn : strip p.nativo = []
    · simp only [hn, ne_eq, not_true_eq_false, if_false, ite_not]
      by_cases hv : strip p.imagem.ocrRaw = []
      · simp [hv]
      · simp only [hv, ite_false, if_false]
        simp [hv]
        exact h5
    · simp [hn]

/-- C4 (corrected).  Pages are processed in order; a page's embedded text
layer is accepted verbatim whenever non-blank (no OCR); otherwise the page
is rasterized and OCRed, and the OCR result is kept only when it is neither
empty nor the no-text sentinel — sentinel pages are omitted, not accepted.
The accepted blocks are joined in page order with the page delimiter, and
when no page contributed a block the document result is the sentinel
`[PDF sem texto legível]`. -/
theorem c4_pdf_amended (paginas : List Pagina) (errMsg nome : List Char)
    (hp : ∀ p ∈ paginas, paginaPlana p)
    (hctx : contextoList 0 ['/'] (lower nome)
      (lower (if pymupdfTextos 0 ['/'] 1 paginas ≠ [] then
        joinSep ('\n' :: ['\n']) (pymupdfTextos 0 ['/'] 1 paginas) else sentinelaPdf)) = []) :
    extrairTextoDePdfComPymupdf (some paginas) errMsg 0 ['/'] nome =
      (if blocosEsperadosSpec 1 paginas = [] then sentinelaPdf
       else joinSep ('\n' :: ['\n']) (blocosEsperadosSpec 1 paginas)) := by
  have hb := pymupdfTextos_spec paginas hp 1
  have hctx' : contextoList 0 ['/'] (lower nome)
      (lower (if pymupdfTextos 0 ['/'] 1 paginas = [] then sentinelaPdf
        else joinSep ('\n' :: ['\n']) (pymupdfTextos 0 ['/'] 1 paginas))) = [] := by
    by_cases he : pymupdfTextos 0 ['/'] 1 paginas = [] <;>
      simp [he] at hctx ⊢ <;> exact hctx
  simp only [extrairTextoDePdfComPymupdf, comContexto]
  rw [if_neg (by simp [hctx']), hb]
  by_cases he : blocosEsperadosSpec 1 paginas = [] <;> simp [he]

/-- Witness for `c4_pdf_amended`: page 1 native `A`, page 2 OCRs to `b`,
page 3 OCRs to nothing and is omitted. -/
theorem c4_pdf_amended_witness :
    extrairTextoDePdfComPymupdf
        (some [⟨"A".data, imagemMuda⟩, ⟨[], ⟨none, " b ".data, []⟩⟩, ⟨[], imagemMuda⟩])
        [] 0 ['/'] "doc.pdf".data =
      (if blocosEsperadosSpec 1
          [⟨"A".data, imagemMuda⟩, ⟨[], ⟨none, " b ".data, []⟩⟩, ⟨[], imagemMuda⟩] = [] then
        sentinelaPdf
       else joinSep ('\n' :: ['\n']) (blocosEsperadosSpec 1
          [⟨"A".data, imagemMuda⟩, ⟨[], ⟨none, " b ".data, []⟩⟩, ⟨[], imagemMuda⟩])) :=
  c4_pdf_amended _ [] "doc.pdf".data
    (by
      intro p hp
      simp only [List.mem_cons, List.not_mem_nil, or_false] at hp
      rcases hp with h | h | h <;> subst h <;>
        exact ⟨by decide, by decide, by decide, by decide, by decide⟩)
    (by decide)

/-! ### C9: stability of the preprocessing chain on binarized images -/

theorem binarizada_mem {g : List (List Nat)} (hb : binarizada g = true)
    {row : List Nat} (hrow : row ∈ g) {x : Nat} (hx : x ∈ row) :
    x = 0 ∨ x = 255 := by
  simp only [binarizada, List.all_eq_true] at hb
  have := hb row hrow
  simp only [List.all_eq_true] at this
  have := this x hx
  simpa using this

theorem rowSum_le {row : List Nat} (h : ∀ x ∈ row, x ≤ 255) :
    row.sum ≤ 255 * row.length := by
  induction row with
  | nil => simp
  | cons x rest ih =>
    simp only [List.sum_cons, List.length_cons]
    have h1 := h x (by simp)
    have h2 := ih (fun y hy => h y (by simp [hy]))
    omega

theorem somaGrid_le {g : List (List Nat)} (hb : binarizada g = true) :
    somaGrid g ≤ 255 * contaGrid g := by
  induction g with
  | nil => simp [somaGrid, contaGrid]
  | cons row rest ih =>
    have hbr : binarizada rest = true := by
      simp only [binarizada, List.all_cons, Bool.and_eq_true] at hb ⊢
      exact hb.2
    have h1 : row.sum ≤ 255 * row.length :=
      rowSum_le (fun x hx => by
        rcases binarizada_mem hb (List.mem_cons_self row rest) hx with h | h <;> omega)
    have h2 := ih hbr
    simp only [somaGrid, contaGrid, List.map_cons, List.sum_cons] at *
    omega

theorem mediaInt_le {g : List (List Nat)} (hb : binarizada g = true) :
    mediaInt g ≤ 255 := by
  have hs := somaGrid_le hb
  unfold mediaInt
  rcases Nat.eq_zero_or_pos (contaGrid g) with h | h
  · simp [h]
  · have : 2 * somaGrid g + contaGrid g < 2 * contaGrid g * 256 := by omega
    have := Nat.div_lt_iff_lt_mul (by omega : 0 < 2 * contaGrid g) |>.mpr
      (by omega : 2 * somaGrid g + contaGrid g < 256 * (2 * contaGrid g))
    omega

theorem mapPix_eq_self (f : Nat → Nat) (g : List (List Nat))
    (h : ∀ row ∈ g, ∀ x ∈ row, f x = x) : mapPix f g = g := by
  induction g with
  | nil => rfl
  | cons row rest ih =>
    simp only [mapPix, List.map_cons]
    have hrow : row.map f = row := by
      have hr := h row (by simp)
      clear h ih
      induction row with
      | nil => rfl
      | cons x r ihr =>
        simp only [List.map_cons]
        rw [hr x (by simp), ihr (fun y hy => hr y (by simp [hy]))]
    rw [hrow]
    have := ih (fun r hrr x hx => h r (by simp [hrr]) x hx)
    simpa [mapPix] using this

theorem contraste_binaria {g : List (List Nat)} (hb : binarizada g = true) :
    contraste g = g := by
  have hm := mediaInt_le hb
  apply mapPix_eq_self
  intro row hrow x hx
  rcases binarizada_mem hb hrow hx with h | h <;>
    (subst h; simp [contrastePixel, clampByte]; try omega)

theorem binariza_binaria {g : List (List Nat)} (hb : binarizada g = true) :
    binarizaPix g = g := by
  apply mapPix_eq_self
  intro row hrow x hx
  rcases binarizada_mem hb hrow hx with h | h <;> subst h <;> decide

theorem gridGet_binaria {g : List (List Nat)} (hb : binarizada g = true)
    (i j : Nat) : gridGet g i j = 0 ∨ gridGet g i j = 255 := by
  unfold gridGet
  cases hrow : g[i]? with
  | none => simp
  | some row =>
    simp only [Option.getD_some]
    cases hx : row[j]? with
    | none => simp
    | some x =>
      have hxr : x ∈ row := List.getElem?_mem hx
      have hrg : row ∈ g := List.getElem?_mem hrow
      simpa using binarizada_mem hb hrg hxr

theorem mapLinhaIdx_eq_self (f : Nat → Nat) (row : List Nat) (j0 : Nat)
    (h : ∀ k, k < row.length → f (j0 + k) = (row[k]?).getD 0) :
    mapLinhaIdx f j0 row = row := by
  induction row generalizing j0 with
  | nil => rfl
  | cons x rest ih =>
    simp only [mapLinhaIdx]
    have h0 := h 0 (by simp)
    simp only [Nat.add_zero, List.getElem?_cons_zero, Option.getD_some] at h0
    rw [h0, ih (j0 + 1) ?_]
    intro k hk
    have hk' := h (k + 1) (by simpa using Nat.succ_lt_succ hk)
    have harith : j0 + (k + 1) = j0 + 1 + k := by omega
    rw [harith] at hk'
    simpa [List.getElem?_cons_succ] using hk'

theorem mapGridIdxFrom_eq_self (f : Nat → Nat → Nat) (g : List (List Nat)) (i0 : Nat)
    (h : ∀ i, i < g.length → ∀ k, k < ((g[i]?).getD []).length →
      f (i0 + i) k = (((g[i]?).getD [])[k]?).getD 0) :
    mapGridIdxFrom f i0 g = g := by
  induction g generalizing i0 with
  | nil => rfl
  | cons row rest ih =>
    simp only [mapGridIdxFrom]
    have h0 : mapLinhaIdx (f i0) 0 row = row := by
      apply mapLinhaIdx_eq_self
      intro k hk
      have := h 0 (by simp) k (by simpa using hk)
      simpa using this
    rw [h0, ih (i0 + 1) ?_]
    intro i hi k hk
    have hi' := h (i + 1) (by simpa using Nat.succ_lt_succ hi)
      k (by simpa [List.getElem?_cons_succ] using hk)
    have harith : i0 + (i + 1) = i0 + 1 + i := by omega
    rw [harith] at hi'
    simpa [List.getElem?_cons_succ] using hi'

theorem nitidez_binaria {g : List (List Nat)} (hb : binarizada g = true) :
    nitidezFilter g = g := by
  unfold nitidezFilter mapGridIdx
  apply mapGridIdxFrom_eq_self
  intro i hi k hk
  simp only [Nat.zero_add]
  have hdef : (((g[i]?).getD [])[k]?).getD 0 = gridGet g i k := rfl
  rw [hdef]
  split
  · rfl
  · have hcentro := gridGet_binaria hb i k
    have hv : ∀ a b : Nat, (gridGet g a b : Int) ≤ 255 ∧ 0 ≤ (gridGet g a b : Int) := by
      intro a b
      rcases gridGet_binaria hb a b with h | h <;> simp [h]
    unfold nitidezPixel clampByte
    obtain ⟨w1, w1'⟩ := hv (i-1) (k-1)
    obtain ⟨w2, w2'⟩ := hv (i-1) k
    obtain ⟨w3, w3'⟩ := hv (i-1) (k+1)
    obtain ⟨w4, w4'⟩ := hv i (k-1)
    obtain ⟨w5, w5'⟩ := hv i (k+1)
    obtain ⟨w6, w6'⟩ := hv (i+1) (k-1)
    obtain ⟨w7, w7'⟩ := hv (i+1) k
    obtain ⟨w8, w8'⟩ := hv (i+1) (k+1)
    rcases hcentro with hc | hc <;> rw [hc] <;> push_cast <;> omega

/-- C9 (corrected).  Re-applying the preprocessor to an already-binarized
image leaves the pixel content unchanged for every configuration with the
denoise stage disabled: grayscale conversion, the 2.0 contrast enhancement,
the sharpen convolution and the binarization threshold are all stable on
bilevel images.  (With denoise enabled the median filter can flip isolated
pixels — see the counterexample — and when binarize is disabled the stored
mode changes from `1` to `L` even though pixels are unchanged.) -/
theorem c9_idempotencia_amended (cfg : PreCfg) (img : Img)
    (hr : cfg.remover_ruido = false)
    (hm : img.mode = "1".data)
    (hb : binarizada img.pix = true) :
    (preProcessarImagem cfg img).pix = img.pix := by
  have hrgba : ¬ img.mode = "RGBA".data := by rw [hm]; decide
  have hca := contraste_binaria hb
  have hnit := nitidez_binaria hb
  have hbin := binariza_binaria hb
  cases hc : cfg.aumentar_contraste <;> cases hcz : cfg.escala_cinza <;>
    cases hn : cfg.nitidez <;> cases hbz : cfg.binarizacao <;>
    simp [preProcessarImagem, hr, hrgba, hc, hcz, hn, hbz, hca, hnit, hbin]

/-- Witness for `c9_idempotencia_amended` at a concrete configuration and
binarized image. -/
theorem c9_idempotencia_amended_witness :
    (preProcessarImagem { remover_ruido := false }
      ⟨"1".data, [[255, 0], [0, 255]]⟩).pix = [[255, 0], [0, 255]] :=
  c9_idempotencia_amended { remover_ruido := false }
    ⟨"1".data, [[255, 0], [0, 255]]⟩ rfl rfl (by decide)

/-! ### C3: string-matching lemmas for the tag grammar -/

theorem prefix_mismatch : ∀ (a b s : List Char), a.isPrefixOf b = false →
    b.isPrefixOf a = false → a.isPrefixOf (b ++ s) = false := by
  intro a
  induction a with
  | nil => intro b s h1 _; simp [List.isPrefixOf] at h1
  | cons x a' ih =>
    intro b s h1 h2
    cases b with
    | nil => simp [List.isPrefixOf] at h2
    | cons y b' =>
      simp only [List.isPrefixOf, List.cons_append, Bool.and_eq_false_iff] at h1 h2 ⊢
      by_cases hxy : x = y
      · subst hxy
        rcases h1 with h1 | h1
        · simp at h1
        · rcases h2 with h2 | h2
          · simp at h2
          · exact Or.inr (ih b' s h1 h2)
      · exact Or.inl (by simpa using hxy)

theorem splitFirst_not_contains (pat : List Char) :
    ∀ s, containsSeq pat s = false → splitFirst pat s = none := by
  intro s
  induction s with
  | nil =>
    intro h
    simp only [containsSeq] at h
    simp [splitFirst, h]
  | cons c rest ih =>
    intro h
    simp only [containsSeq, Bool.or_eq_false_iff] at h
    simp [splitFirst, h.1, ih h.2]

theorem isPrefixOf_append_self : ∀ (pat s : List Char), pat.isPrefixOf (pat ++ s) = true := by
  intro pat
  induction pat with
  | nil => intro s; simp [List.isPrefixOf]
  | cons p pt ih => intro s; simp [List.isPrefixOf, ih]

theorem splitFirst_prefix (p : Char) (pt s : List Char) :
    splitFirst (p :: pt) ((p :: pt) ++ s) = some ([], s) := by
  simp only [List.cons_append, splitFirst]
  split
  · simp [List.drop_left]
  · exact absurd (isPrefixOf_append_self (p :: pt) s) (by assumption)

theorem splitFirst_cons_neg (pat : List Char) (c : Char) (s : List Char)
    (h : pat.isPrefixOf (c :: s) = false) :
    splitFirst pat (c :: s) = (splitFirst pat s).map (fun q => (c :: q.1, q.2)) := by
  simp [splitFirst, h]

theorem containsSeq_of_splitFirst (pat : List Char) :
    ∀ s x, splitFirst pat s = some x → containsSeq pat s = true := by
  intro s
  induction s with
  | nil =>
    intro x h
    simp only [splitFirst] at h
    by_cases hp : pat.isPrefixOf [] = true
    · simpa [containsSeq] using hp
    · simp [hp] at h
  | cons c rest ih =>
    intro x h
    by_cases hp : pat.isPrefixOf (c :: rest) = true
    · simp [containsSeq, hp]
    · have hp' : pat.isPrefixOf (c :: rest) = false := by
        cases hpp : pat.isPrefixOf (c :: rest) with
        | false => rfl
        | true => exact absurd hpp hp
      rw [splitFirst_cons_neg pat c rest hp'] at h
      cases hr : splitFirst pat rest with
      | none => rw [hr] at h; simp at h
      | some y =>
        simp [containsSeq, ih y hr]

theorem isPrefixOf_bracket_head (pt : List Char) (c : Char) (hc : c ≠ '[')
    (s : List Char) : ('[' :: pt).isPrefixOf (c :: s) = false := by
  simp [List.isPrefixOf]
  intro h
  exact absurd h.symm hc

theorem splitFirst_seg (pt seg : List Char) (h : ∀ c ∈ seg, c ≠ '[') (s : List Char) :
    splitFirst ('[' :: pt) (seg ++ s) =
      (splitFirst ('[' :: pt) s).map (fun q => (seg ++ q.1, q.2)) := by
  induction seg with
  | nil =>
    cases hs : splitFirst ('[' :: pt) s <;> simp [hs]
  | cons c seg' ih =>
    rw [List.cons_append,
      splitFirst_cons_neg _ c _ (isPrefixOf_bracket_head pt c (h c (by simp)) _),
      ih (fun d hd => h d (by simp [hd]))]
    cases hs : splitFirst ('[' :: pt) s <;> simp [hs]

theorem containsSeq_seg (pt seg : List Char) (h : ∀ c ∈ seg, c ≠ '[') (s : List Char) :
    containsSeq ('[' :: pt) (seg ++ s) = containsSeq ('[' :: pt) s := by
  induction seg with
  | nil => simp
  | cons c seg' ih =>
    rw [List.cons_append]
    simp only [containsSeq, isPrefixOf_bracket_head pt c (h c (by simp)) _,
      Bool.false_or]
    exact ih (fun d hd => h d (by simp [hd]))

theorem upToBracket_append (payload : List Char) (h : ∀ c ∈ payload, c ≠ ']')
    (s : List Char) : upToBracket (payload ++ ']' :: s) = payload := by
  induction payload with
  | nil => simp [upToBracket, List.takeWhile]
  | cons c p' ih =>
    have hc : c ≠ ']' := h c (by simp)
    have hrec := ih (fun d hd => h d (by simp [hd]))
    simp only [upToBracket] at hrec ⊢
    simp [List.takeWhile_cons, hc]
    simpa using hrec

theorem splitFirst_skipTag (name : List Char) (t : List Char × List Char)
    (hsk : skipcond name t) (rest : List Char) :
    splitFirst ('[' :: name) (renderTag t ++ rest) =
      (splitFirst ('[' :: name) rest).map (fun q => (renderTag t ++ q.1, q.2)) := by
  obtain ⟨h1, h2, h3, h4⟩ := hsk
  have hX : renderTag t ++ rest = '[' :: (t.1 ++ (t.2 ++ ']' :: rest)) := by
    simp [renderTag]
  have hpref : ('[' :: name).isPrefixOf ('[' :: (t.1 ++ (t.2 ++ ']' :: rest))) = false := by
    simp only [List.isPrefixOf, Bool.and_eq_false_iff]
    exact Or.inr (prefix_mismatch name t.1 _ h1 h2)
  rw [hX, splitFirst_cons_neg _ _ _ hpref,
    show t.1 ++ (t.2 ++ ']' :: rest) = (t.1 ++ t.2 ++ [']']) ++ rest from by simp,
    splitFirst_seg name _ (by
      intro c hc
      simp only [List.mem_append, List.mem_singleton] at hc
      rcases hc with (hc | hc) | hc
      · exact h3 c hc
      · exact h4 c hc
      · subst hc; decide) rest]
  cases hs : splitFirst ('[' :: name) rest <;> simp [hs, renderTag]

theorem containsSeq_skipTag (name : List Char) (t : List Char × List Char)
    (hsk : skipcond name t) (rest : List Char) :
    containsSeq ('[' :: name) (renderTag t ++ rest) = containsSeq ('[' :: name) rest := by
  obtain ⟨h1, h2, h3, h4⟩ := hsk
  have hX : renderTag t ++ rest = '[' :: (t.1 ++ (t.2 ++ ']' :: rest)) := by
    simp [renderTag]
  have hpref : ('[' :: name).isPrefixOf ('[' :: (t.1 ++ (t.2 ++ ']' :: rest))) = false := by
    simp only [List.isPrefixOf, Bool.and_eq_false_iff]
    exact Or.inr (prefix_mismatch name t.1 _ h1 h2)
  rw [hX]
  simp only [containsSeq, hpref, Bool.false_or]
  rw [show t.1 ++ (t.2 ++ ']' :: rest) = (t.1 ++ t.2 ++ [']']) ++ rest from by simp,
    containsSeq_seg name _ (by
      intro c hc
      simp only [List.mem_append, List.mem_singleton] at hc
      rcases hc with (hc | hc) | hc
      · exact h3 c hc
      · exact h4 c hc
      · subst hc; decide) rest]

theorem campo_none (name s : List Char) (h : containsSeq ('[' :: name) s = false) :
    campo name s = none := by
  simp [campo, marcador, h]

theorem campo_seg (name seg : List Char) (hseg : ∀ c ∈ seg, c ≠ '[') (s : List Char) :
    campo name (seg ++ s) = campo name s := by
  simp only [campo, marcador, containsSeq_seg name seg hseg s, pySplitSnd,
    splitFirst_seg name seg hseg s]
  cases hs : splitFirst ('[' :: name) s with
  | none => simp [hs]
  | some q => cases hq : splitFirst ('[' :: name) q.2 <;> simp [hs, hq]

theorem campo_skipTag (name : List Char) (t : List Char × List Char)
    (hsk : skipcond name t) (s : List Char) :
    campo name (renderTag t ++ s) = campo name s := by
  simp only [campo, marcador, containsSeq_skipTag name t hsk s, pySplitSnd,
    splitFirst_skipTag name t hsk s]
  cases hs : splitFirst ('[' :: name) s with
  | none => simp [hs]
  | some q => cases hq : splitFirst ('[' :: name) q.2 <;> simp [hs, hq]

theorem campo_hit (name payload s : List Char)
    (hpay : ∀ c ∈ payload, c ≠ ']')
    (hs : containsSeq ('[' :: name) (payload ++ ']' :: s) = false) :
    campo name (renderTag (name, payload) ++ s) = some payload := by
  have hX : renderTag (name, payload) ++ s = ('[' :: name) ++ (payload ++ ']' :: s) := by
    simp [renderTag]
  have hsf : splitFirst ('[' :: name) (('[' :: name) ++ (payload ++ ']' :: s)) =
      some ([], payload ++ ']' :: s) := splitFirst_prefix '[' name _
  rw [hX]
  simp only [campo, marcador, pySplitSnd, hsf,
    containsSeq_of_splitFirst _ _ _ hsf, if_true,
    splitFirst_not_contains _ _ hs]
  simp [upToBracket_append payload hpay s]

theorem digitChar_ok (d : Nat) (hd : d < 10) :
    (Char.ofNat (48 + d)).isDigit = true ∧ Char.ofNat (48 + d) ≠ '[' ∧
      Char.ofNat (48 + d) ≠ ']' ∧ (Char.ofNat (48 + d)).toNat = 48 + d := by
  interval_cases d <;> exact ⟨by decide, by decide, by decide, by decide⟩

theorem natCharsAux_bounds : ∀ fuel n, n < fuel →
    natCharsAux fuel n ≠ [] ∧
      ∀ c ∈ natCharsAux fuel n, c.isDigit = true ∧ c ≠ '[' ∧ c ≠ ']' := by
  intro fuel
  induction fuel with
  | zero => intro n h; omega
  | succ f ih =>
    intro n h
    by_cases h10 : n < 10
    · simp only [natCharsAux, if_pos h10]
      obtain ⟨d1, d2, d3, _⟩ := digitChar_ok n h10
      refine ⟨by simp, ?_⟩
      intro c hc
      simp only [List.mem_singleton] at hc
      subst hc
      exact ⟨d1, d2, d3⟩
    · simp only [natCharsAux, if_neg h10]
      have hrec := ih (n / 10) (by omega)
      refine ⟨by simp, ?_⟩
      intro c hc
      rcases List.mem_append.mp hc with hcm | hcm
      · exact hrec.2 c hcm
      · simp only [List.mem_singleton] at hcm
        subst hcm
        obtain ⟨d1, d2, d3, _⟩ := digitChar_ok (n % 10) (by omega)
        exact ⟨d1, d2, d3⟩

theorem natChars_mem (n : Nat) : ∀ c ∈ natChars n, c ≠ '[' ∧ c ≠ ']' := by
  intro c hc
  have := (natCharsAux_bounds (n + 1) n (by omega)).2 c hc
  exact ⟨this.2.1, this.2.2⟩

theorem natCharsAux_foldl : ∀ fuel n a, n < fuel →
    (natCharsAux fuel n).foldl (fun acc c => acc * 10 + (c.toNat - 48)) a =
      a * 10 ^ (natCharsAux fuel n).length + n := by
  intro fuel
  induction fuel with
  | zero => intro n a h; omega
  | succ f ih =>
    intro n a h
    by_cases h10 : n < 10
    · simp only [natCharsAux, if_pos h10]
      obtain ⟨_, _, _, d4⟩ := digitChar_ok n h10
      simp only [List.foldl_cons, List.foldl_nil, List.length_cons,
        List.length_nil, Nat.zero_add, pow_one, d4]
      omega
    · simp only [natCharsAux, if_neg h10]
      rw [List.foldl_append, ih (n / 10) a (by omega)]
      obtain ⟨_, _, _, d4⟩ := digitChar_ok (n % 10) (by omega)
      simp only [List.foldl_cons, List.foldl_nil, List.length_append,
        List.length_cons, List.length_nil, Nat.zero_add, pow_succ, d4]
      ring_nf
      omega

theorem parseNat_natChars (n : Nat) : parseNat? (natChars n) = some n := by
  have hb := natCharsAux_bounds (n + 1) n (by omega)
  have hf := natCharsAux_foldl (n + 1) n 0 (by omega)
  unfold natChars at *
  unfold parseNat?
  rw [if_pos ?hcond]
  case hcond =>
    simp only [Bool.and_eq_true, decide_eq_true_eq, ne_eq, List.all_eq_true]
    exact ⟨hb.1, fun c hc => (hb.2 c hc).1⟩
  rw [hf]
  simp

theorem joinSep_cons_ne (sep : List Char) (t : List Char) (L : List (List Char))
    (h : L ≠ []) : joinSep sep (t :: L) = t ++ sep ++ joinSep sep L := by
  cases L with
  | nil => exact absurd rfl h
  | cons u L' => rfl

theorem containsSeq_joined (name : List Char) (L : List (List Char × List Char))
    (corpo : List Char) (hL : ∀ t ∈ L, skipcond name t)
    (hc : containsSeq ('[' :: name) corpo = false) :
    containsSeq ('[' :: name)
      (joinSep [' '] (L.map renderTag) ++ '\n' :: '\n' :: corpo) = false := by
  induction L with
  | nil =>
    simp only [List.map_nil, joinSep, List.nil_append]
    rw [show ('\n' :: '\n' :: corpo) = ['\n', '\n'] ++ corpo from rfl,
      containsSeq_seg name ['\n', '\n'] (by decide) corpo]
    exact hc
  | cons t L' ih =>
    have hskip := hL t (by simp)
    have hrest := ih (fun u hu => hL u (by simp [hu]))
    cases L' with
    | nil =>
      simp only [List.map_cons, List.map_nil, joinSep]
      rw [containsSeq_skipTag name t hskip,
        show ('\n' :: '\n' :: corpo) = ['\n', '\n'] ++ corpo from rfl,
        containsSeq_seg name ['\n', '\n'] (by decide) corpo]
      exact hc
    | cons u L'' =>
      rw [show joinSep [' '] ((t :: u :: L'').map renderTag) ++ '\n' :: '\n' :: corpo =
            renderTag t ++ ([' '] ++
              (joinSep [' '] ((u :: L'').map renderTag) ++ '\n' :: '\n' :: corpo)) from by
          simp [joinSep, joinSep_cons_ne],
        containsSeq_skipTag name t hskip,
        containsSeq_seg name [' '] (by decide)]
      exact hrest

theorem campo_joined_absent (name : List Char) (L : List (List Char × List Char))
    (corpo : List Char) (hL : ∀ t ∈ L, skipcond name t)
    (hc : containsSeq ('[' :: name) corpo = false) :
    campo name (joinSep [' '] (L.map renderTag) ++ '\n' :: '\n' :: corpo) = none :=
  campo_none _ _ (containsSeq_joined name L corpo hL hc)

theorem campo_joined_found (name payload : List Char)
    (L1 L2 : List (List Char × List Char)) (corpo : List Char)
    (hL1 : ∀ t ∈ L1, skipcond name t) (hL2 : ∀ t ∈ L2, skipcond name t)
    (hpayB : ∀ c ∈ payload, c ≠ ']') (hpayO : ∀ c ∈ payload, c ≠ '[')
    (hc : containsSeq ('[' :: name) corpo = false) :
    campo name (joinSep [' '] ((L1 ++ (name, payload) :: L2).map renderTag) ++
      '\n' :: '\n' :: corpo) = some payload := by
  induction L1 with
  | nil =>
    simp only [List.nil_append, List.map_cons]
    cases L2 with
    | nil =>
      simp only [List.map_nil, joinSep]
      apply campo_hit name payload _ hpayB
      rw [show payload ++ ']' :: '\n' :: '\n' :: corpo =
            (payload ++ ([']'] ++ ['\n', '\n'])) ++ corpo from by simp,
        show (payload ++ ([']'] ++ ['\n', '\n'])) ++ corpo =
            payload ++ (([']'] ++ ['\n', '\n']) ++ corpo) from by simp,
        containsSeq_seg name payload hpayO,
        show ([']'] ++ ['\n', '\n']) ++ corpo = [']', '\n', '\n'] ++ corpo from by simp,
        containsSeq_seg name [']', '\n', '\n'] (by decide) corpo]
      exact hc
    | cons u L2' =>
      rw [show joinSep [' '] (renderTag (name, payload) :: (u :: L2').map renderTag) ++
            '\n' :: '\n' :: corpo =
          renderTag (name, payload) ++ ([' '] ++
            (joinSep [' '] ((u :: L2').map renderTag) ++ '\n' :: '\n' :: corpo)) from by
          simp [joinSep, joinSep_cons_ne]]
      apply campo_hit name payload _ hpayB
      rw [show payload ++ ']' :: ([' '] ++
            (joinSep [' '] ((u :: L2').map renderTag) ++ '\n' :: '\n' :: corpo)) =
          payload ++ (([']'] ++ [' ']) ++
            (joinSep [' '] ((u :: L2').map renderTag) ++ '\n' :: '\n' :: corpo)) from by
          simp,
        containsSeq_seg name payload hpayO,
        show ([']'] ++ [' ']) ++
            (joinSep [' '] ((u :: L2').map renderTag) ++ '\n' :: '\n' :: corpo) =
          [']', ' '] ++
            (joinSep [' '] ((u :: L2').map renderTag) ++ '\n' :: '\n' :: corpo) from by
          simp,
        containsSeq_seg name [']', ' '] (by decide)]
      exact containsSeq_joined name (u :: L2') corpo hL2 hc
  | cons t L1' ih =>
    have hskip := hL1 t (by simp)
    have hner : (L1' ++ (name, payload) :: L2).map renderTag ≠ [] := by simp
    rw [List.cons_append]
    rw [show (t :: (L1' ++ (name, payload) :: L2)).map renderTag =
          renderTag t :: (L1' ++ (name, payload) :: L2).map renderTag from by simp,
      joinSep_cons_ne [' '] _ _ hner,
      show (renderTag t ++ [' '] ++
            joinSep [' '] ((L1' ++ (name, payload) :: L2).map renderTag)) ++
            '\n' :: '\n' :: corpo =
          renderTag t ++ ([' '] ++
            (joinSep [' '] ((L1' ++ (name, payload) :: L2).map renderTag) ++
              '\n' :: '\n' :: corpo)) from by simp,
      campo_skipTag name t hskip,
      campo_seg name [' '] (by decide)]
    exact ih (fun u hu => hL1 u (by simp [hu]))

theorem nivelTagOpt_eq_none_iff (nivel : Nat) : nivelTagOpt nivel = none ↔ nivel = 0 := by
  unfold nivelTagOpt
  split <;> rename_i h <;> simp <;> omega

theorem nivelTagOpt_eq_some (nivel : Nat) (t : List Char × List Char)
    (h : nivelTagOpt nivel = some t) : t = ("Nível ".data, natChars nivel) := by
  unfold nivelTagOpt at h
  split at h
  · exact (Option.some.inj h).symm
  · cases h

theorem caminhoTagOpt_eq_none_iff (caminho : List Char) :
    caminhoTagOpt caminho = none ↔ (caminho = [] ∨ caminho = ['/']) := by
  unfold caminhoTagOpt
  split <;> rename_i h <;> simp <;> tauto

theorem caminhoTagOpt_eq_some (caminho : List Char) (t : List Char × List Char)
    (h : caminhoTagOpt caminho = some t) :
    t = ("Caminho: ".data, caminho) ∧ ¬(caminho = [] ∨ caminho = ['/']) := by
  unfold caminhoTagOpt at h
  split at h <;> rename_i hcond
  · exact ⟨(Option.some.inj h).symm, by tauto⟩
  · cases h

theorem tipoTag_eq_some (x y : List Char) (t : List Char × List Char)
    (h : tipoTag x y = some t) :
    t.1 = "Tipo: ".data ∧ (∀ c ∈ t.2, c ≠ '[') ∧ (∀ c ∈ t.2, c ≠ ']') := by
  unfold tipoTag at h
  split_ifs at h <;> first
    | (cases h; exact ⟨rfl, by decide, by decide⟩)
    | simp at h

theorem menuCatTag_eq_some (y : List Char) (t : List Char × List Char)
    (h : menuCatTag y = some t) :
    ((t.1 = "Menu: ".data ∨ t.1 = "Categoria: ".data) ∧
      (∀ c ∈ t.2, c ≠ '[') ∧ (∀ c ∈ t.2, c ≠ ']')) := by
  unfold menuCatTag at h
  split_ifs at h <;> first
    | (cases h; exact ⟨Or.inl rfl, by decide, by decide⟩)
    | (cases h; exact ⟨Or.inr rfl, by decide, by decide⟩)
    | simp at h

theorem skipAll_append {name : List Char} {A B : List (List Char × List Char)}
    (ha : ∀ t ∈ A, skipcond name t) (hb : ∀ t ∈ B, skipcond name t) :
    ∀ t ∈ A ++ B, skipcond name t := by
  intro t ht
  rcases List.mem_append.mp ht with h | h
  · exact ha t h
  · exact hb t h

theorem skipAll_nivel (name : List Char) (nivel : Nat)
    (h1 : name.isPrefixOf "Nível ".data = false)
    (h2 : ("Nível ".data).isPrefixOf name = false) :
    ∀ t ∈ (nivelTagOpt nivel).toList, skipcond name t := by
  intro t ht
  cases hv : nivelTagOpt nivel with
  | none => rw [hv] at ht; simp at ht
  | some u =>
    rw [hv] at ht
    simp only [Option.toList_some, List.mem_singleton] at ht
    rw [ht]
    have hu := nivelTagOpt_eq_some nivel u hv
    subst hu
    exact ⟨h1, h2, (by decide : ∀ c ∈ "Nível ".data, c ≠ '['),
      fun c hc => (natChars_mem nivel c hc).1⟩

theorem skipAll_caminho (name caminho : List Char)
    (h1 : name.isPrefixOf "Caminho: ".data = false)
    (h2 : ("Caminho: ".data).isPrefixOf name = false)
    (hcam : ∀ c ∈ caminho, c ≠ '[') :
    ∀ t ∈ (caminhoTagOpt caminho).toList, skipcond name t := by
  intro t ht
  cases hv : caminhoTagOpt caminho with
  | none => rw [hv] at ht; simp at ht
  | some u =>
    rw [hv] at ht
    simp only [Option.toList_some, List.mem_singleton] at ht
    rw [ht]
    obtain ⟨hu, _⟩ := caminhoTagOpt_eq_some caminho u hv
    subst hu
    exact ⟨h1, h2, (by decide : ∀ c ∈ "Caminho: ".data, c ≠ '['), hcam⟩

theorem skipAll_tipo (name x y : List Char)
    (h1 : name.isPrefixOf "Tipo: ".data = false)
    (h2 : ("Tipo: ".data).isPrefixOf name = false) :
    ∀ t ∈ (tipoTag x y).toList, skipcond name t := by
  intro t ht
  cases hv : tipoTag x y with
  | none => rw [hv] at ht; simp at ht
  | some u =>
    rw [hv] at ht
    simp only [Option.toList_some, List.mem_singleton] at ht
    rw [ht]
    obtain ⟨hu1, hu2, _⟩ := tipoTag_eq_some x y u hv
    exact ⟨by rw [hu1]; exact h1, by rw [hu1]; exact h2, by rw [hu1]; decide, hu2⟩

theorem skipAll_menucat (name y : List Char)
    (hm1 : name.isPrefixOf "Menu: ".data = false)
    (hm2 : ("Menu: ".data).isPrefixOf name = false)
    (hc1 : name.isPrefixOf "Categoria: ".data = false)
    (hc2 : ("Categoria: ".data).isPrefixOf name = false) :
    ∀ t ∈ (menuCatTag y).toList, skipcond name t := by
  intro t ht
  cases hv : menuCatTag y with
  | none => rw [hv] at ht; simp at ht
  | some u =>
    rw [hv] at ht
    simp only [Option.toList_some, List.mem_singleton] at ht
    rw [ht]
    obtain ⟨hu1, hu2, _⟩ := menuCatTag_eq_some y u hv
    rcases hu1 with hu1 | hu1
    · exact ⟨by rw [hu1]; exact hm1, by rw [hu1]; exact hm2, by rw [hu1]; decide, hu2⟩
    · exact ⟨by rw [hu1]; exact hc1, by rw [hu1]; exact hc2, by rw [hu1]; decide, hu2⟩

theorem core_eval (raw : List Char) (botoes : List (List Char)) (nome : List Char)
    (nivel : Nat) (caminho : List Char) (hstrip : strip raw = raw) :
    extrairTextoDeImagemCore ⟨none, raw, botoes⟩ nome nivel caminho =
      ouSentinela (comContexto (contextoList nivel caminho (lower nome) (lower raw)) raw
        ++ botaoSufixo botoes) := by
  by_cases hb : botoes = [] <;>
    simp [extrairTextoDeImagemCore, hstrip, botaoSufixo, hb]

theorem comContexto_append_ne (ctx : List (List Char × List Char))
    (raw sufixo : List Char) (h : ctx ≠ []) :
    comContexto ctx raw ++ sufixo =
      joinSep [' '] (ctx.map renderTag) ++ '\n' :: '\n' :: (raw ++ sufixo) := by
  simp [comContexto, h]


theorem parse_sem_marcadores (s : List Char)
    (h : ∀ m ∈ marcadores, containsSeq m s = false) :
    (extrairInfoContexto s).nivel = 0 ∧ (extrairInfoContexto s).caminho = ['/'] ∧
    (extrairInfoContexto s).tipo = "Desconhecido".data ∧
    (extrairInfoContexto s).menu = [] ∧ (extrairInfoContexto s).categoria = [] := by
  have h1 := campo_none "Nível ".data s (h _ (by decide))
  have h2 := campo_none "Caminho: ".data s (h _ (by decide))
  have h3 := campo_none "Tipo: ".data s (h _ (by decide))
  have h4 := campo_none "Menu: ".data s (h _ (by decide))
  have h5 := campo_none "Categoria: ".data s (h _ (by decide))
  simp [extrairInfoContexto, h1, h2, h3, h4, h5]

theorem optnil {α : Type} (o : Option α) (h : o.toList = []) : o = none := by
  cases o with
  | none => rfl
  | some a => simp at h

/-- C3 (confirmed).  Parsing the annotated output of the image extractor
recovers every provenance field that was non-default when annotated, and
fields omitted at annotate time parse back to their defaults (level 0, path
`/`, type `Desconhecido`, empty menu/category) — for any recognized text
(with its appended interface annotations) free of bracket-tag collisions
and any crawler path free of square brackets. -/
theorem c3_parse_annotate (nivel : Nat) (caminho nome raw : List Char)
    (botoes : List (List Char))
    (hstrip : strip raw = raw)
    (hcamO : ∀ c ∈ caminho, c ≠ '[') (hcamC : ∀ c ∈ caminho, c ≠ ']')
    (hcorpo : ∀ m ∈ marcadores, containsSeq m (raw ++ botaoSufixo botoes) = false) :
    (extrairInfoContexto (extrairTextoDeImagemCore ⟨none, raw, botoes⟩
        nome nivel caminho)).nivel = nivel ∧
    (extrairInfoContexto (extrairTextoDeImagemCore ⟨none, raw, botoes⟩
        nome nivel caminho)).caminho =
      (if caminho = [] ∨ caminho = ['/'] then ['/'] else caminho) ∧
    (extrairInfoContexto (extrairTextoDeImagemCore ⟨none, raw, botoes⟩
        nome nivel caminho)).tipo =
      (match tipoTag (lower nome) (lower raw) with
        | some t => t.2
        | none => "Desconhecido".data) ∧
    (extrairInfoContexto (extrairTextoDeImagemCore ⟨none, raw, botoes⟩
        nome nivel caminho)).menu =
      (match menuCatTag (lower raw) with
        | some t => if t.1 = "Menu: ".data then t.2 else []
        | none => []) ∧
    (extrairInfoContexto (extrairTextoDeImagemCore ⟨none, raw, botoes⟩
        nome nivel caminho)).categoria =
      (match menuCatTag (lower raw) with
        | some t => if t.1 = "Categoria: ".data then t.2 else []
        | none => []) := by
  have hm1 : containsSeq ('[' :: "Nível ".data) (raw ++ botaoSufixo botoes) = false :=
    hcorpo _ (by decide)
  have hm2 : containsSeq ('[' :: "Caminho: ".data) (raw ++ botaoSufixo botoes) = false :=
    hcorpo _ (by decide)
  have hm3 : containsSeq ('[' :: "Tipo: ".data) (raw ++ botaoSufixo botoes) = false :=
    hcorpo _ (by decide)
  have hm4 : containsSeq ('[' :: "Menu: ".data) (raw ++ botaoSufixo botoes) = false :=
    hcorpo _ (by decide)
  have hm5 : containsSeq ('[' :: "Categoria: ".data) (raw ++ botaoSufixo botoes) = false :=
    hcorpo _ (by decide)
  rw [core_eval raw botoes nome nivel caminho hstrip]
  by_cases hctx : contextoList nivel caminho (lower nome) (lower raw) = []
  · have hctx' := hctx
    simp only [contextoList, List.append_eq_nil] at hctx'
    obtain ⟨⟨⟨hA', hB'⟩, hC'⟩, hD'⟩ := hctx'
    have hniv : nivel = 0 := (nivelTagOpt_eq_none_iff nivel).mp (optnil _ hA')
    have hcm : caminho = [] ∨ caminho = ['/'] :=
      (caminhoTagOpt_eq_none_iff caminho).mp (optnil _ hB')
    have hC0 : tipoTag (lower nome) (lower raw) = none := optnil _ hC'
    have hD0 : menuCatTag (lower raw) = none := optnil _ hD'
    rw [hctx, comContexto_nil]
    by_cases hvz : raw ++ botaoSufixo botoes = []
    · rw [hvz, ouSentinela_nil]
      obtain ⟨p1, p2, p3, p4, p5⟩ := parse_sem_marcadores sentinelaImagem (by decide)
      exact ⟨by rw [p1, hniv], by rw [p2, if_pos hcm], by rw [p3, hC0],
        by rw [p4, hD0], by rw [p5, hD0]⟩
    · rw [ouSentinela_id _ hvz]
      obtain ⟨p1, p2, p3, p4, p5⟩ := parse_sem_marcadores _ hcorpo
      exact ⟨by rw [p1, hniv], by rw [p2, if_pos hcm], by rw [p3, hC0],
        by rw [p4, hD0], by rw [p5, hD0]⟩
  · rw [comContexto_append_ne _ _ _ hctx, ouSentinela_id _ (by simp)]
    refine ⟨?_, ?_, ?_, ?_, ?_⟩
    · -- nivel
      cases hA : nivelTagOpt nivel with
      | none =>
        have hniv : nivel = 0 := (nivelTagOpt_eq_none_iff nivel).mp hA
        have hskips : ∀ t ∈ contextoList nivel caminho (lower nome) (lower raw),
            skipcond "Nível ".data t :=
          skipAll_append (skipAll_append (skipAll_append
            (by intro t ht; rw [hA] at ht; simp at ht)
            (skipAll_caminho _ _ (by decide) (by decide) hcamO))
            (skipAll_tipo _ _ _ (by decide) (by decide)))
            (skipAll_menucat _ _ (by decide) (by decide) (by decide) (by decide))
        have hcampo := campo_joined_absent "Nível ".data _ _ hskips hm1
        simp only [extrairInfoContexto]
        rw [hcampo]
        simp [hniv]
      | some u =>
        have hu := nivelTagOpt_eq_some nivel u hA
        subst hu
        have hdec : contextoList nivel caminho (lower nome) (lower raw) =
            [] ++ ("Nível ".data, natChars nivel) ::
              ((caminhoTagOpt caminho).toList ++
                (tipoTag (lower nome) (lower raw)).toList ++
                (menuCatTag (lower raw)).toList) := by
          simp [contextoList, hA]
        have hskips : ∀ t ∈ (caminhoTagOpt caminho).toList ++
            (tipoTag (lower nome) (lower raw)).toList ++
            (menuCatTag (lower raw)).toList, skipcond "Nível ".data t :=
          skipAll_append (skipAll_append
            (skipAll_caminho _ _ (by decide) (by decide) hcamO)
            (skipAll_tipo _ _ _ (by decide) (by decide)))
            (skipAll_menucat _ _ (by decide) (by decide) (by decide) (by decide))
        have hfound := campo_joined_found "Nível ".data (natChars nivel) [] _ _
          (by intro t ht; simp at ht) hskips
          (fun c hc => (natChars_mem nivel c hc).2)
          (fun c hc => (natChars_mem nivel c hc).1) hm1
        rw [hdec]
        simp only [extrairInfoContexto]
        rw [hfound]
        simp [parseNat_natChars]
    · -- caminho
      cases hB : caminhoTagOpt caminho with
      | none =>
        have hcm := (caminhoTagOpt_eq_none_iff caminho).mp hB
        have hskips : ∀ t ∈ contextoList nivel caminho (lower nome) (lower raw),
            skipcond "Caminho: ".data t :=
          skipAll_append (skipAll_append (skipAll_append
            (skipAll_nivel _ _ (by decide) (by decide))
            (by intro t ht; rw [hB] at ht; simp at ht))
            (skipAll_tipo _ _ _ (by decide) (by decide)))
            (skipAll_menucat _ _ (by decide) (by decide) (by decide) (by decide))
        have hcampo := campo_joined_absent "Caminho: ".data _ _ hskips hm2
        simp [extrairInfoContexto, hcampo, if_pos hcm]
      | some u =>
        obtain ⟨hu, hcond⟩ := caminhoTagOpt_eq_some caminho u hB
        subst hu
        have hdec : contextoList nivel caminho (lower nome) (lower raw) =
            (nivelTagOpt nivel).toList ++ ("Caminho: ".data, caminho) ::
              ((tipoTag (lower nome) (lower raw)).toList ++
                (menuCatTag (lower raw)).toList) := by
          simp [contextoList, hB]
        have hsk1 : ∀ t ∈ (nivelTagOpt nivel).toList, skipcond "Caminho: ".data t :=
          skipAll_nivel _ _ (by decide) (by decide)
        have hsk2 : ∀ t ∈ (tipoTag (lower nome) (lower raw)).toList ++
            (menuCatTag (lower raw)).toList, skipcond "Caminho: ".data t :=
          skipAll_append (skipAll_tipo _ _ _ (by decide) (by decide))
            (skipAll_menucat _ _ (by decide) (by decide) (by decide) (by decide))
        have hfound := campo_joined_found "Caminho: ".data caminho _ _ _
          hsk1 hsk2 hcamC hcamO hm2
        rw [hdec]
        simp only [extrairInfoContexto]
        rw [hfound]
        simp [hcond]
    · -- tipo
      cases hC : tipoTag (lower nome) (lower raw) with
      | none =>
        have hskips : ∀ t ∈ contextoList nivel caminho (lower nome) (lower raw),
            skipcond "Tipo: ".data t :=
          skipAll_append (skipAll_append (skipAll_append
            (skipAll_nivel _ _ (by decide) (by decide))
            (skipAll_caminho _ _ (by decide) (by decide) hcamO))
            (by intro t ht; rw [hC] at ht; simp at ht))
            (skipAll_menucat _ _ (by decide) (by decide) (by decide) (by decide))
        have hcampo := campo_joined_absent "Tipo: ".data _ _ hskips hm3
        simp [extrairInfoContexto, hcampo]
      | some u =>
        obtain ⟨hu1, hpO, hpC⟩ := tipoTag_eq_some (lower nome) (lower raw) u hC
        obtain ⟨u1, u2⟩ := u
        simp only at hu1 hpO hpC
        subst hu1
        have hdec : contextoList nivel caminho (lower nome) (lower raw) =
            ((nivelTagOpt nivel).toList ++ (caminhoTagOpt caminho).toList) ++
              ("Tipo: ".data, u2) :: (menuCatTag (lower raw)).toList := by
          simp [contextoList, hC]
        have hsk1 : ∀ t ∈ (nivelTagOpt nivel).toList ++ (caminhoTagOpt caminho).toList,
            skipcond "Tipo: ".data t :=
          skipAll_append (skipAll_nivel _ _ (by decide) (by decide))
            (skipAll_caminho _ _ (by decide) (by decide) hcamO)
        have hsk2 : ∀ t ∈ (menuCatTag (lower raw)).toList, skipcond "Tipo: ".data t :=
          skipAll_menucat _ _ (by decide) (by decide) (by decide) (by decide)
        have hfound := campo_joined_found "Tipo: ".data u2 _ _ _ hsk1 hsk2 hpC hpO hm3
        rw [hdec]
        simp only [extrairInfoContexto]
        rw [hfound]
        simp
    · -- menu
      cases hD : menuCatTag (lower raw) with
      | none =>
        have hskips : ∀ t ∈ contextoList nivel caminho (lower nome) (lower raw),
            skipcond "Menu: ".data t :=
          skipAll_append (skipAll_append (skipAll_append
            (skipAll_nivel _ _ (by decide) (by decide))
            (skipAll_caminho _ _ (by decide) (by decide) hcamO))
            (skipAll_tipo _ _ _ (by decide) (by decide)))
            (by intro t ht; rw [hD] at ht; simp at ht)
        have hcampo := campo_joined_absent "Menu: ".data _ _ hskips hm4
        simp [extrairInfoContexto, hcampo]
      | some u =>
        obtain ⟨hu1, hpO, hpC⟩ := menuCatTag_eq_some (lower raw) u hD
        obtain ⟨u1, u2⟩ := u
        simp only at hu1 hpO hpC
        rcases hu1 with hu1 | hu1
        · subst hu1
          have hdec : contextoList nivel caminho (lower nome) (lower raw) =
              ((nivelTagOpt nivel).toList ++ (caminhoTagOpt caminho).toList ++
                (tipoTag (lower nome) (lower raw)).toList) ++
                ("Menu: ".data, u2) :: [] := by
            simp [contextoList, hD]
          have hsk1 : ∀ t ∈ (nivelTagOpt nivel).toList ++ (caminhoTagOpt caminho).toList ++
              (tipoTag (lower nome) (lower raw)).toList, skipcond "Menu: ".data t :=
            skipAll_append (skipAll_append
              (skipAll_nivel _ _ (by decide) (by decide))
              (skipAll_caminho _ _ (by decide) (by decide) hcamO))
              (skipAll_tipo _ _ _ (by decide) (by decide))
          have hfound := campo_joined_found "Menu: ".data u2 _ [] _ hsk1
            (by intro t ht; simp at ht) hpC hpO hm4
          rw [hdec]
          simp only [extrairInfoContexto]
          rw [hfound]
          simp
        · subst hu1
          have hskips : ∀ t ∈ contextoList nivel caminho (lower nome) (lower raw),
              skipcond "Menu: ".data t :=
            skipAll_append (skipAll_append (skipAll_append
              (skipAll_nivel _ _ (by decide) (by decide))
              (skipAll_caminho _ _ (by decide) (by decide) hcamO))
              (skipAll_tipo _ _ _ (by decide) (by decide)))
              ((by
                intro t ht
                rw [hD] at ht
                simp only [Option.toList_some, List.mem_singleton] at ht
                rw [ht]
                exact ⟨(by decide : "Menu: ".data.isPrefixOf "Categoria: ".data = false),
                  (by decide : "Categoria: ".data.isPrefixOf "Menu: ".data = false),
                  (by decide : ∀ c ∈ "Categoria: ".data, c ≠ '['), hpO⟩ :
                ∀ t ∈ (menuCatTag (lower raw)).toList, skipcond "Menu: ".data t))
          have hcampo := campo_joined_absent "Menu: ".data _ _ hskips hm4
          simp [extrairInfoContexto, hcampo]
    · -- categoria
      cases hD : menuCatTag (lower raw) with
      | none =>
        have hskips : ∀ t ∈ contextoList nivel caminho (lower nome) (lower raw),
            skipcond "Categoria: ".data t :=
          skipAll_append (skipAll_append (skipAll_append
            (skipAll_nivel _ _ (by decide) (by decide))
            (skipAll_caminho _ _ (by decide) (by decide) hcamO))
            (skipAll_tipo _ _ _ (by decide) (by decide)))
            (by intro t ht; rw [hD] at ht; simp at ht)
        have hcampo := campo_joined_absent "Categoria: ".data _ _ hskips hm5
        simp [extrairInfoContexto, hcampo]
      | some u =>
        obtain ⟨hu1, hpO, hpC⟩ := menuCatTag_eq_some (lower raw) u hD
        obtain ⟨u1, u2⟩ := u
        simp only at hu1 hpO hpC
        rcases hu1 with hu1 | hu1
        · subst hu1
          have hskips : ∀ t ∈ contextoList nivel caminho (lower nome) (lower raw),
              skipcond "Categoria: ".data t :=
            skipAll_append (skipAll_append (skipAll_append
              (skipAll_nivel _ _ (by decide) (by decide))
              (skipAll_caminho _ _ (by decide) (by decide) hcamO))
              (skipAll_tipo _ _ _ (by decide) (by decide)))
              ((by
                intro t ht
                rw [hD] at ht
                simp only [Option.toList_some, List.mem_singleton] at ht
                rw [ht]
                exact ⟨(by decide : "Categoria: ".data.isPrefixOf "Menu: ".data = false),
                  (by decide : "Menu: ".data.isPrefixOf "Categoria: ".data = false),
                  (by decide : ∀ c ∈ "Menu: ".data, c ≠ '['), hpO⟩ :
                ∀ t ∈ (menuCatTag (lower raw)).toList, skipcond "Categoria: ".data t))
          have hcampo := campo_joined_absent "Categoria: ".data _ _ hskips hm5
          simp [extrairInfoContexto, hcampo]
        · subst hu1
          have hdec : contextoList nivel caminho (lower nome) (lower raw) =
              ((nivelTagOpt nivel).toList ++ (caminhoTagOpt caminho).toList ++
                (tipoTag (lower nome) (lower raw)).toList) ++
                ("Categoria: ".data, u2) :: [] := by
            simp [contextoList, hD]
          have hsk1 : ∀ t ∈ (nivelTagOpt nivel).toList ++ (caminhoTagOpt caminho).toList ++
              (tipoTag (lower nome) (lower raw)).toList, skipcond "Categoria: ".data t :=
            skipAll_append (skipAll_append
              (skipAll_nivel _ _ (by decide) (by decide))
              (skipAll_caminho _ _ (by decide) (by decide) hcamO))
              (skipAll_tipo _ _ _ (by decide) (by decide))
          have hfound := campo_joined_found "Categoria: ".data u2 _ [] _ hsk1
            (by intro t ht; simp at ht) hpC hpO hm5
          rw [hdec]
          simp only [extrairInfoContexto]
          rw [hfound]
          simp

/-- Witness for `c3_parse_annotate` at a concrete annotated image. -/
theorem c3_parse_annotate_witness :
    (extrairInfoContexto (extrairTextoDeImagemCore ⟨none, "guia rápido de seguros".data, []⟩
        "comunicado_beta.png".data 2 "/Guias/Beta".data)).nivel = 2 ∧
    (extrairInfoContexto (extrairTextoDeImagemCore ⟨none, "guia rápido de seguros".data, []⟩
        "comunicado_beta.png".data 2 "/Guias/Beta".data)).caminho = "/Guias/Beta".data ∧
    (extrairInfoContexto (extrairTextoDeImagemCore ⟨none, "guia rápido de seguros".data, []⟩
        "comunicado_beta.png".data 2 "/Guias/Beta".data)).tipo = "Comunicado".data ∧
    (extrairInfoContexto (extrairTextoDeImagemCore ⟨none, "guia rápido de seguros".data, []⟩
        "comunicado_beta.png".data 2 "/Guias/Beta".data)).menu = "Guia Rápido".data ∧
    (extrairInfoContexto (extrairTextoDeImagemCore ⟨none, "guia rápido de seguros".data, []⟩
        "comunicado_beta.png".data 2 "/Guias/Beta".data)).categoria = [] := by
  obtain ⟨p1, p2, p3, p4, p5⟩ := c3_parse_annotate 2 "/Guias/Beta".data
    "comunicado_beta.png".data "guia rápido de seguros".data []
    (by decide) (by decide) (by decide) (by decide)
  exact ⟨p1, by rw [p2]; decide, by rw [p3]; decide, by rw [p4]; decide,
    by rw [p5]; decide⟩

end Oraculo
